import Mathlib

/-! # runworker: coordinator/worker RPC layer

A shallow embedding of `src/js/mod.js` (the CommonJS build; `src/esm/mod.mjs`
carries the same `buildMap`, `convertErrorToPlainObj`, call dispatcher,
call-return handler and `mapper`).

Modelling conventions

* JavaScript values are the finite, acyclic trees of `Val`.  Numbers are
  integers, objects carry their own string-keyed data properties in enumeration
  order together with the enumerable flag, functions are named by an index into
  a table of behaviours (`WorkerEnv.impl`).  An array is either dense and
  without further properties (`Val.arr`) or given by its positions, some of
  which may be holes, and its further own named properties (`Val.arrWith`).
  Inherited (prototype) properties are outside the model.
* An absent field (`undefined`) of a transported record is `none`.
* Code that can throw returns `Except`, or the state it leaves together with
  the error.  A handler returns the list of what it did, in order: for the
  asynchronous worker handler this says whether a reply was sent or the handler
  ended by throwing.
* The channel hands a sent envelope to the other side unchanged.
* A promise is named by a number; calls of its `resolve` and `reject`, and of
  those of the spawn promise `runWorker` returns, are recorded as effects.
-/

namespace RunWorker

/-! ## Values -/

/-- JavaScript values of the exported surface and of call traffic. -/
inductive Val where
  | undefined : Val
  | null : Val
  | bool (b : Bool) : Val
  | num (n : Int) : Val
  | str (s : String) : Val
  | fn (isAsync : Bool) (id : Nat) : Val
  | promise (id : Nat) : Val
  | arr (elems : List Val) : Val
  | obj (cls : String) (members : List (String × Bool × Val)) : Val
  | arrWith (slots : List (Option Val)) (named : List (String × Bool × Val)) : Val
  deriving Inhabited

/-- The operator `obj instanceof Function`. -/
def instanceofFunction : Val → Bool
  | .fn _ _ => true
  | _ => false

/-- The operator `obj instanceof AsyncFunction`. -/
def instanceofAsyncFunction : Val → Bool
  | .fn true _ => true
  | _ => false

/-- The operator `obj instanceof Promise`. -/
def instanceofPromise : Val → Bool
  | .promise _ => true
  | _ => false

/-- The builtin `Array.isArray`. -/
def isArray : Val → Bool
  | .arr _ => true
  | .arrWith _ _ => true
  | _ => false

/-- The operator `typeof`. -/
def typeof : Val → String
  | .undefined => "undefined"
  | .null => "object"
  | .bool _ => "boolean"
  | .num _ => "number"
  | .str _ => "string"
  | .fn _ _ => "function"
  | .promise _ => "object"
  | .arr _ => "object"
  | .obj _ _ => "object"
  | .arrWith _ _ => "object"

/-- The test `obj === null`. -/
def isNull : Val → Bool
  | .null => true
  | _ => false

/-- The positions of an array value; `none` is a hole. -/
def arraySlots : Val → List (Option Val)
  | .arr elems => elems.map some
  | .arrWith slots _ => slots
  | _ => []

/-- The own named properties an array value has besides its positions and
`length`. -/
def arrayNamed : Val → List (String × Bool × Val)
  | .arrWith _ named => named
  | _ => []

/-- The own members of an object value that is neither an array, a function nor
a promise. -/
def ownMembers : Val → List (String × Bool × Val)
  | .obj _ members => members
  | _ => []

/-- How the application of an exported function ends, seen by its caller (for
an async function: by the `await` of its result). -/
inductive Outcome where
  | returns (v : Val) : Outcome
  | throws (e : Val) : Outcome
  | pending : Outcome

/-! ## Decimal text of array indices and integers -/

/-- The character of one decimal digit. -/
def digitChar (d : Nat) : Char := Char.ofNat (48 + d)

/-- Digits of `n`, most significant first, pushed in front of `acc`. -/
def decimalAux : Nat → Nat → List Char → List Char
  | 0, _, acc => acc
  | fuel + 1, n, acc =>
    if n < 10 then digitChar n :: acc
    else decimalAux fuel (n / 10) (digitChar (n % 10) :: acc)

/-- Decimal text of a natural number (`String(i)` for an array index). -/
def decimal (n : Nat) : List Char := decimalAux (n + 1) n []

/-- The property key of array position `i`. -/
def indexKey (i : Nat) : String := String.mk (decimal i)

/-! ## Export map builder (`buildMap`) -/

/-- One node of the announced export tree: `{type, key, children}`. -/
inductive ExportNode where
  | mk (type : String) (key : Option String) (children : Option (List ExportNode)) : ExportNode
  deriving Inhabited

namespace ExportNode

/-- Field `type`. -/
def type : ExportNode → String
  | .mk t _ _ => t

/-- Field `key`. -/
def key : ExportNode → Option String
  | .mk _ k _ => k

/-- Field `children`. -/
def children : ExportNode → Option (List ExportNode)
  | .mk _ _ c => c

end ExportNode

mutual
/-- The function `buildMap(obj, _key)`; the arms are the branches of its
`if`/`else if` chain, in source order. -/
def buildMap (obj : Val) (_key : Option String) : ExportNode :=
  match obj with
  -- obj instanceof Function && !(obj instanceof AsyncFunction)
  | .fn false _ => .mk "Function" _key none
  -- obj instanceof AsyncFunction
  | .fn true _ => .mk "AsyncFunction" _key none
  -- obj instanceof Promise
  | .promise _ => .mk "Promise" _key none
  -- Array.isArray(obj)
  | .arr elems => .mk "Array" _key (some (buildMapElems elems 0))
  | .arrWith slots named =>
    .mk "Array" _key (some (buildMapSlots slots 0 ++ buildMapMembers named))
  -- typeof obj === "object" && obj !== null
  | .obj _ members => .mk "Object" _key (some (buildMapMembers members))
  -- obj === null
  | .null => .mk "null" _key none
  -- else: {type: typeof obj, key: _key}
  | .undefined => .mk (typeof .undefined) _key none
  | .bool b => .mk (typeof (.bool b)) _key none
  | .num n => .mk (typeof (.num n)) _key none
  | .str s => .mk (typeof (.str s)) _key none
/-- The loop `for (let i in obj) children.push(buildMap(obj[i], i))` over an
array, from position `i` on. -/
def buildMapElems (elems : List Val) (i : Nat) : List ExportNode :=
  match elems with
  | [] => []
  | x :: rest => buildMap x (some (indexKey i)) :: buildMapElems rest (i + 1)
/-- The same loop over the positions of an array that has holes: `for .. in`
visits the positions that hold an element, in ascending order, under their own
index. -/
def buildMapSlots (slots : List (Option Val)) (i : Nat) : List ExportNode :=
  match slots with
  | [] => []
  | none :: rest => buildMapSlots rest (i + 1)
  | some x :: rest => buildMap x (some (indexKey i)) :: buildMapSlots rest (i + 1)
/-- The loop `for (let i in obj) children.push(buildMap(obj[i], i))` over the
members of an object, and over the named properties of an array after its
positions: `for .. in` visits the enumerable ones. -/
def buildMapMembers (members : List (String × Bool × Val)) : List ExportNode :=
  match members with
  | [] => []
  | (name, true, x) :: rest => buildMap x (some name) :: buildMapMembers rest
  | (_, false, _) :: rest => buildMapMembers rest
end

/-! ## Serialisation (`JSON.stringify`, `JSON.parse`) -/

/-- The double quote character. -/
def dquote : Char := Char.ofNat 34

/-- The reverse solidus character. -/
def bslash : Char := Char.ofNat 92

/-- The opening brace. -/
def lbrace : Char := Char.ofNat 123

/-- The closing brace. -/
def rbrace : Char := Char.ofNat 125

/-- One lower-case hexadecimal digit. -/
def hexDigit (d : Nat) : Char :=
  if d < 10 then Char.ofNat (48 + d) else Char.ofNat (87 + d)

/-- The escape of one character inside a JSON string (QuoteJSONString). -/
def escapeChar (c : Char) : List Char :=
  if c = dquote then [bslash, dquote]
  else if c = bslash then [bslash, bslash]
  else if c = Char.ofNat 8 then [bslash, 'b']
  else if c = Char.ofNat 12 then [bslash, 'f']
  else if c = Char.ofNat 10 then [bslash, 'n']
  else if c = Char.ofNat 13 then [bslash, 'r']
  else if c = Char.ofNat 9 then [bslash, 't']
  else if c.toNat < 32 then
    [bslash, 'u', '0', '0', hexDigit (c.toNat / 16), hexDigit (c.toNat % 16)]
  else [c]

/-- The escapes of all characters of a string. -/
def escapeChars : List Char → List Char
  | [] => []
  | c :: cs => escapeChar c ++ escapeChars cs

/-- The operation QuoteJSONString. -/
def quoteJSONString (s : String) : List Char :=
  dquote :: (escapeChars s.data ++ [dquote])

/-- Text of an integer number. -/
def numberText (n : Int) : List Char :=
  if n < 0 then '-' :: decimal n.natAbs else decimal n.toNat

/-- The separator in front of a list item or member. -/
def separator (first : Bool) : List Char :=
  if first then [] else [',']

mutual
/-- The operation SerializeJSONProperty; `none` is the result `undefined`. -/
def serialize (v : Val) : Option (List Char) :=
  match v with
  | .undefined => none
  | .null => some ['n', 'u', 'l', 'l']
  | .bool true => some ['t', 'r', 'u', 'e']
  | .bool false => some ['f', 'a', 'l', 's', 'e']
  | .num n => some (numberText n)
  | .str s => some (quoteJSONString s)
  | .fn _ _ => none
  | .promise _ => some [lbrace, rbrace]
  | .arr elems => some ('[' :: (serializeElems elems true ++ [']']))
  | .obj _ members => some (lbrace :: (serializeMembers members true ++ [rbrace]))
  | .arrWith slots _ => some ('[' :: (serializeSlots slots true ++ [']']))
/-- The positions `0 .. length-1` of an array with holes, separated by commas; a
hole reads as `undefined` and is written `null`, named properties are not
written. -/
def serializeSlots (slots : List (Option Val)) (first : Bool) : List Char :=
  match slots with
  | [] => []
  | none :: rest => separator first ++ (['n', 'u', 'l', 'l'] ++ serializeSlots rest false)
  | some x :: rest =>
    separator first ++ ((serialize x).getD ['n', 'u', 'l', 'l'] ++ serializeSlots rest false)
/-- The elements of an array, separated by commas; an element without a
serialisation is written `null`. -/
def serializeElems (elems : List Val) (first : Bool) : List Char :=
  match elems with
  | [] => []
  | x :: rest =>
    separator first ++ ((serialize x).getD ['n', 'u', 'l', 'l'] ++ serializeElems rest false)
/-- The enumerable members of an object, separated by commas; a member without
a serialisation is left out. -/
def serializeMembers (members : List (String × Bool × Val)) (first : Bool) : List Char :=
  match members with
  | [] => []
  | (name, true, x) :: rest =>
    match serialize x with
    | none => serializeMembers rest first
    | some text =>
      separator first ++ (quoteJSONString name ++ (':' :: (text ++ serializeMembers rest false)))
  | (_, false, _) :: rest => serializeMembers rest first
end

/-- The builtin `JSON.stringify(value)`; `none` is the result `undefined`. -/
def JSON.stringify (v : Val) : Option String :=
  (serialize v).map String.mk

/-- JSON white space. -/
def isWs (c : Char) : Bool :=
  c = ' ' || c = Char.ofNat 9 || c = Char.ofNat 10 || c = Char.ofNat 13

/-- Drop leading white space. -/
def skipWs : List Char → List Char
  | [] => []
  | c :: cs => if isWs c then skipWs cs else c :: cs

/-- Consume the literal `lit` from the front of the input. -/
def expect : List Char → List Char → Option (List Char)
  | [], cs => some cs
  | _ :: _, [] => none
  | l :: lit, c :: cs => if l = c then expect lit cs else none

/-- Value of a hexadecimal digit. -/
def hexVal (c : Char) : Option Nat :=
  if 48 ≤ c.toNat ∧ c.toNat ≤ 57 then some (c.toNat - 48)
  else if 97 ≤ c.toNat ∧ c.toNat ≤ 102 then some (c.toNat - 87)
  else if 65 ≤ c.toNat ∧ c.toNat ≤ 70 then some (c.toNat - 55)
  else none

/-- The character of a four-digit escape; code units that are not scalar values
(surrogates) have no counterpart in the model. -/
def unicodeEscape (h1 h2 h3 h4 : Char) : Option Char :=
  match hexVal h1, hexVal h2, hexVal h3, hexVal h4 with
  | some a, some b, some c, some d =>
    let n := ((a * 16 + b) * 16 + c) * 16 + d
    if n < 55296 ∨ 57343 < n then some (Char.ofNat n) else none
  | _, _, _, _ => none

/-- The characters of a JSON string after its opening quote, up to and
including the closing quote. -/
def parseStringBody : List Char → Option (List Char × List Char)
  | [] => none
  | c :: cs =>
    if c = dquote then some ([], cs)
    else if c = bslash then
      match cs with
      | [] => none
      | e :: cs1 =>
        if e = dquote then (parseStringBody cs1).map fun r => (dquote :: r.1, r.2)
        else if e = bslash then (parseStringBody cs1).map fun r => (bslash :: r.1, r.2)
        else if e = '/' then (parseStringBody cs1).map fun r => ('/' :: r.1, r.2)
        else if e = 'b' then (parseStringBody cs1).map fun r => (Char.ofNat 8 :: r.1, r.2)
        else if e = 'f' then (parseStringBody cs1).map fun r => (Char.ofNat 12 :: r.1, r.2)
        else if e = 'n' then (parseStringBody cs1).map fun r => (Char.ofNat 10 :: r.1, r.2)
        else if e = 'r' then (parseStringBody cs1).map fun r => (Char.ofNat 13 :: r.1, r.2)
        else if e = 't' then (parseStringBody cs1).map fun r => (Char.ofNat 9 :: r.1, r.2)
        else if e = 'u' then
          match cs1 with
          | h1 :: h2 :: h3 :: h4 :: cs2 =>
            match unicodeEscape h1 h2 h3 h4 with
            | some u => (parseStringBody cs2).map fun r => (u :: r.1, r.2)
            | none => none
          | _ => none
        else none
    else if c.toNat < 32 then none
    else (parseStringBody cs).map fun r => (c :: r.1, r.2)

/-- Whether the character is a decimal digit. -/
def isDigit (c : Char) : Bool := 48 ≤ c.toNat && c.toNat ≤ 57

/-- The leading decimal digits of the input, as a number continuing `acc`, and
the rest of the input. -/
def parseDigits : List Char → Nat → Nat × List Char
  | [], acc => (acc, [])
  | c :: cs, acc =>
    if isDigit c then parseDigits cs (acc * 10 + (c.toNat - 48)) else (acc, c :: cs)

/-- The magnitude of a JSON number: `0`, or a digit sequence without a leading
zero.  Numbers with a fraction or an exponent are not integers and are outside
the model. -/
def parseMagnitude : List Char → Option (Nat × List Char)
  | [] => none
  | c :: cs =>
    if isDigit c then
      let r := if c = '0' then (0, cs) else parseDigits cs (c.toNat - 48)
      match r.2 with
      | d :: _ => if d = '.' ∨ d = 'e' ∨ d = 'E' then none else some r
      | [] => some r
    else none

/-- CreateDataProperty on a parsed object: a repeated name keeps its place and
takes the later value. -/
def setMember (members : List (String × Bool × Val)) (name : String) (x : Val) :
    List (String × Bool × Val) :=
  match members with
  | [] => [(name, true, x)]
  | (n, e, y) :: rest =>
    if n = name then (n, e, x) :: rest else (n, e, y) :: setMember rest name x

mutual
/-- One JSON value at the front of the input. -/
def parseValue (fuel : Nat) (input : List Char) : Option (Val × List Char) :=
  match fuel with
  | 0 => none
  | fuel + 1 =>
    match skipWs input with
    | [] => none
    | c :: cs =>
      if c = 'n' then (expect ['u', 'l', 'l'] cs).map fun r => (Val.null, r)
      else if c = 't' then (expect ['r', 'u', 'e'] cs).map fun r => (Val.bool true, r)
      else if c = 'f' then (expect ['a', 'l', 's', 'e'] cs).map fun r => (Val.bool false, r)
      else if c = dquote then (parseStringBody cs).map fun r => (Val.str (String.mk r.1), r.2)
      else if c = '[' then
        match skipWs cs with
        | [] => none
        | d :: ds => if d = ']' then some (Val.arr [], ds) else parseElems fuel (d :: ds) []
      else if c = lbrace then
        match skipWs cs with
        | [] => none
        | d :: ds => if d = rbrace then some (Val.obj "Object" [], ds) else parseMembers fuel (d :: ds) []
      else if c = '-' then (parseMagnitude cs).map fun r => (Val.num (-(r.1 : Int)), r.2)
      else (parseMagnitude (c :: cs)).map fun r => (Val.num (r.1 : Int), r.2)
/-- The elements of an array after its opening bracket. -/
def parseElems (fuel : Nat) (input : List Char) (acc : List Val) : Option (Val × List Char) :=
  match fuel with
  | 0 => none
  | fuel + 1 =>
    match parseValue fuel input with
    | none => none
    | some (x, rest) =>
      match skipWs rest with
      | [] => none
      | d :: ds =>
        if d = ',' then parseElems fuel ds (acc ++ [x])
        else if d = ']' then some (Val.arr (acc ++ [x]), ds)
        else none
/-- The members of an object after its opening brace. -/
def parseMembers (fuel : Nat) (input : List Char) (acc : List (String × Bool × Val)) :
    Option (Val × List Char) :=
  match fuel with
  | 0 => none
  | fuel + 1 =>
    match skipWs input with
    | [] => none
    | q :: qs =>
      if q = dquote then
        match parseStringBody qs with
        | none => none
        | some (name, afterName) =>
          match skipWs afterName with
          | [] => none
          | colon :: afterColon =>
            if colon = ':' then
              match parseValue fuel afterColon with
              | none => none
              | some (x, rest) =>
                match skipWs rest with
                | [] => none
                | d :: ds =>
                  if d = ',' then parseMembers fuel ds (setMember acc (String.mk name) x)
                  else if d = rbrace then
                    some (Val.obj "Object" (setMember acc (String.mk name) x), ds)
                  else none
            else none
      else none
end

/-- The builtin `JSON.parse(text)`; `none` is a thrown SyntaxError. -/
def JSON.parse (text : String) : Option Val :=
  match parseValue (2 * text.data.length + 2) text.data with
  | none => none
  | some (v, rest) => if skipWs rest = [] then some v else none

/-! ## Errors and the error marshaler (`convertErrorToPlainObj`) -/

/-- What the worker process supplies around the dispatcher: the behaviour of
the exported functions, the stack text the engine records in a new error, and
the path of the loaded module. -/
structure WorkerEnv where
  /-- Function `id` applied to a receiver and an argument list. -/
  impl : Nat → Val → List Val → Outcome
  /-- Stack text of an error created with the given message. -/
  stackOf : String → String
  /-- The parameter `workerJsFile` of the handler. -/
  workerJsFile : String

/-- An error object of class `cls`, as `new cls(message)` creates it: its own
properties `stack` and `message` are not enumerable. -/
def mkError (stackOf : String → String) (cls message : String) : Val :=
  .obj cls [("stack", false, .str (stackOf message)), ("message", false, .str message)]

/-- The properties `0 .. n-1` of an array or string, from position `i` on. -/
def indexedProps (items : List Val) (i : Nat) : List (String × Bool × Val) :=
  match items with
  | [] => []
  | x :: rest => (indexKey i, true, x) :: indexedProps rest (i + 1)

/-- The index properties of an array with holes: a hole is no property. -/
def slotProps (slots : List (Option Val)) (i : Nat) : List (String × Bool × Val) :=
  match slots with
  | [] => []
  | none :: rest => slotProps rest (i + 1)
  | some x :: rest => (indexKey i, true, x) :: slotProps rest (i + 1)

/-- The characters of a string as one-character string values. -/
def charVals (s : String) : List Val :=
  s.data.map fun c => Val.str (String.mk [c])

/-- Own string-keyed properties of a value converted to an object, in the order
of `Object.getOwnPropertyNames`; `none` for `undefined` and `null`, which have
no object form.  Own properties of functions are outside the model. -/
def ownProperties : Val → Option (List (String × Bool × Val))
  | .undefined => none
  | .null => none
  | .bool _ => some []
  | .num _ => some []
  | .str s => some (indexedProps (charVals s) 0 ++ [("length", false, .num s.data.length)])
  | .fn _ _ => some []
  | .promise _ => some []
  | .arr elems => some (indexedProps elems 0 ++ [("length", false, .num elems.length)])
  | .obj _ members => some members
  | .arrWith slots named =>
    some (slotProps slots 0 ++ ("length", false, .num slots.length) :: named)

/-- Look a name up among own properties. -/
def lookupProp (members : List (String × Bool × Val)) (key : String) : Val :=
  match members with
  | [] => .undefined
  | (n, _, x) :: rest => if n = key then x else lookupProp rest key

/-- The name of a value without object form in an engine message. -/
def typeName : Val → String
  | .null => "null"
  | _ => "undefined"

/-- The property read `fn[fnPart]`: a TypeError on `undefined` and `null`, the
own property otherwise, `undefined` when there is none. -/
def getProp (stackOf : String → String) (v : Val) (key : String) : Except Val Val :=
  match ownProperties v with
  | none =>
    .error (mkError stackOf "TypeError"
      ("Cannot read properties of " ++ typeName v ++ " (reading '" ++ key ++ "')"))
  | some members => .ok (lookupProp members key)

/-- The function `convertErrorToPlainObj(error)`: a fresh plain object with one
property per own property name of `error`; `Object.getOwnPropertyNames` throws
a TypeError on `undefined` and `null`. -/
def convertErrorToPlainObj (stackOf : String → String) (error : Val) : Except Val Val :=
  match ownProperties error with
  | none => .error (mkError stackOf "TypeError" "Cannot convert undefined or null to object")
  | some members => .ok (.obj "Object" (members.map fun m => (m.1, true, m.2.2)))

/-! ## Envelopes -/

/-- The IPC message identifier `REF`. -/
def REF : String := "runWorker"

/-- A message on the channel between coordinator and worker: the fields the two
message handlers read.  The field `obj` of a content envelope, the export tree,
is `tree`.  An absent `id`, `result`, `key` or tree is `none`; an absent or null
`error` is `Val.null`. -/
structure Msg where
  ref : String
  cmd : String
  id : Option String
  functionPath : List String
  arguments : List Val
  error : Val
  result : Option String
  key : Option String
  obj : Val
  tree : Option ExportNode
  workerJsFile : Option String

/-- The envelope `{ref: REF, cmd: 'call', id, functionPath, arguments}`. -/
def Msg.call (id : String) (functionPath : List String) (arguments : List Val) : Msg :=
  { ref := REF, cmd := "call", id := some id, functionPath := functionPath,
    arguments := arguments, error := .null, result := none, key := none, obj := .undefined,
    tree := none, workerJsFile := none }

/-- The envelope `{ref: REF, cmd: 'call-ret', id, functionPath, error, result}`. -/
def Msg.callRet (id : Option String) (functionPath : List String) (error : Val)
    (result : Option String) : Msg :=
  { ref := REF, cmd := "call-ret", id := id, functionPath := functionPath,
    arguments := [], error := error, result := result, key := none, obj := .undefined,
    tree := none, workerJsFile := none }

/-- The envelope `{ref: REF, cmd: 'emit', key, obj}`. -/
def Msg.emit (key : String) (obj : Val) : Msg :=
  { ref := REF, cmd := "emit", id := none, functionPath := [], arguments := [],
    error := .null, result := none, key := some key, obj := obj, tree := none,
    workerJsFile := none }

/-- The envelope `{ref: REF, cmd: 'content', obj}`. -/
def Msg.content (tree : ExportNode) : Msg :=
  { ref := REF, cmd := "content", id := none, functionPath := [], arguments := [],
    error := .null, result := none, key := none, obj := .undefined, tree := some tree,
    workerJsFile := none }

/-! ## Worker side: the call dispatcher of `_runWorkerHandler` -/

/-- What the worker's message handler does, in order. -/
inductive WorkerEvent where
  /-- The call `process.emit(msg.key, msg.obj)`. -/
  | emitted (key : Option String) (obj : Val) : WorkerEvent
  /-- Function `id` was applied to a receiver and an argument list. -/
  | invoked (id : Nat) (receiver : Val) (arguments : List Val) : WorkerEvent
  /-- The call `console.error(REF+':WORKER', err)`. -/
  | logged (err : Val) : WorkerEvent
  /-- The call `process.send(message)`. -/
  | sent (message : Msg) : WorkerEvent
  /-- The handler ended by throwing `err` (its promise is rejected). -/
  | raised (err : Val) : WorkerEvent
  /-- The call `console.error(err)` of the bootstrap. -/
  | printed (err : Val) : WorkerEvent
  /-- The call `process.exit(code)`. -/
  | exited (code : Nat) : WorkerEvent
  /-- The registration `process.on('message', ...)` of the call handler. -/
  | registered : WorkerEvent

/-- The loop `for (let fnPart of msg.functionPath) { fnLast = fn; fn = fn[fnPart]; }`;
the result is the pair `(fn, fnLast)`. -/
def walkPath (stackOf : String → String) (fn fnLast : Val) (functionPath : List String) :
    Except Val (Val × Val) :=
  match functionPath with
  | [] => .ok (fn, fnLast)
  | fnPart :: rest =>
    match getProp stackOf fn fnPart with
    | .error e => .error e
    | .ok next => walkPath stackOf next fn rest

/-- The application `fn.apply(fnLast, msg.arguments)` (awaited for an async
function): a value without `apply` cannot be called. -/
def applyFn (env : WorkerEnv) (fn fnLast : Val) (arguments : List Val) :
    List WorkerEvent × Outcome :=
  match fn with
  | .fn _ id => ([.invoked id fnLast arguments], env.impl id fnLast arguments)
  | _ => ([], .throws (mkError env.stackOf "TypeError" "fn.apply is not a function"))

/-- The body of the `try` block. -/
def tryBlock (env : WorkerEnv) (fn fnLast : Val) (msg : Msg) : List WorkerEvent × Outcome :=
  if instanceofFunction fn && !instanceofAsyncFunction fn then
    applyFn env fn fnLast msg.arguments
  else if instanceofAsyncFunction fn then
    applyFn env fn fnLast msg.arguments
  else if instanceofPromise fn then
    applyFn env fn fnLast msg.arguments
  else
    ([], .throws (mkError env.stackOf "Error"
      ("worker " ++ env.workerJsFile ++ " has no function '" ++
        ".".intercalate msg.functionPath ++ "'")))

/-- The field `result: ret !== undefined ? JSON.stringify(ret) : undefined`. -/
def resultField (ret : Val) : Option String :=
  match ret with
  | .undefined => none
  | v => JSON.stringify v

/-- The reply `{ref: REF, cmd: 'call-ret', id: msg.id, functionPath:
msg.functionPath, error: error, result: ...}`. -/
def replyTo (msg : Msg) (error ret : Val) : Msg :=
  Msg.callRet msg.id msg.functionPath error (resultField ret)

/-- The `catch` block and the reply, after the `try` block ended as `attempt`
says: a returned value is sent back, a thrown one is logged, marshaled and sent
back, and a call that never completes is never answered. -/
def finishCall (env : WorkerEnv) (msg : Msg) (attempt : List WorkerEvent × Outcome) :
    List WorkerEvent :=
  match attempt with
  | (events, .returns ret) => events ++ [.sent (replyTo msg .null ret)]
  | (events, .throws err) =>
    match convertErrorToPlainObj env.stackOf err with
    | .error e => events ++ [.logged err, .raised e]
    | .ok error => events ++ [.logged err, .sent (replyTo msg error .undefined)]
  | (events, .pending) => events

/-- The `cmd == 'call'` branch of the worker's message handler. -/
def _runWorkerHandler.onCall (env : WorkerEnv) (requiredWorker : Val) (msg : Msg) :
    List WorkerEvent :=
  match walkPath env.stackOf requiredWorker requiredWorker msg.functionPath with
  | .error e => [.raised e]
  | .ok (fn, fnLast) => finishCall env msg (tryBlock env fn fnLast msg)

/-- The value found at a key path of the loaded module. -/
def valueAt (stackOf : String → String) (requiredWorker : Val) (functionPath : List String) :
    Except Val Val :=
  match walkPath stackOf requiredWorker requiredWorker functionPath with
  | .error e => .error e
  | .ok r => .ok r.1

/-- The worker's handler `process.on('message', async (msg) => ...)`. -/
def _runWorkerHandler.onMessage (env : WorkerEnv) (requiredWorker : Val) (msg : Msg) :
    List WorkerEvent :=
  if msg.ref ≠ REF then []
  else if msg.cmd = "emit" then [.emitted msg.key msg.obj]
  else if msg.cmd = "call" then _runWorkerHandler.onCall env requiredWorker msg
  else []

/-- The announcement `process.send({ref: REF, cmd: 'content', obj: buildMap(requiredWorker)})`. -/
def _runWorkerHandler.announce (requiredWorker : Val) : Msg :=
  Msg.content (buildMap requiredWorker none)

/-! ## Coordinator side: `runWorker` -/

/-- The conversion of a value to a boolean in a condition. -/
def truthy : Val → Bool
  | .undefined => false
  | .null => false
  | .bool b => b
  | .num n => decide (n ≠ 0)
  | .str s => decide (s ≠ "")
  | .fn _ _ => true
  | .promise _ => true
  | .arr _ => true
  | .obj _ _ => true
  | .arrWith _ _ => true

/-- The conversion of an optional string field (`msg.id`, `msg.result`,
`obj.key`) to a boolean: absent and empty are false. -/
def truthyStr : Option String → Bool
  | none => false
  | some text => decide (text ≠ "")

/-- Errors thrown by the coordinator's handlers. -/
inductive CoordError where
  /-- The error `new Error('trying to resolve an answered function - ' + JSON.stringify(msg))`. -/
  | answeredFunction (msg : Msg) : CoordError
  /-- A TypeError: the member called is not a function. -/
  | notAFunction (member : String) : CoordError
  /-- The SyntaxError of `JSON.parse`. -/
  | syntaxError (text : String) : CoordError
  /-- A TypeError: a property of `undefined` is read, or `undefined` is iterated. -/
  | undefinedAccess (what : String) : CoordError
  /-- The error `new Error("'" + key + "' is a reserved message keyword")`. -/
  | reserved (key : String) : CoordError
  /-- A ReferenceError: the name is not defined. -/
  | referenceError (name : String) : CoordError

/-- What the coordinator's handlers and stubs do, in order.  A promise is named
by a number; `resolved` and `rejected` are calls of its `resolve` and `reject`. -/
inductive Effect where
  | resolved (promise : Nat) (value : Val) : Effect
  | rejected (promise : Nat) (reason : Val) : Effect
  /-- The call `crypto.randomBytes(n)`. -/
  | randomBytes (n : Nat) : Effect
  /-- The call `retObj.send(message)`. -/
  | sentToWorker (message : Msg) : Effect
  /-- The call `retObj.emit(msg.key, msg.obj)`. -/
  | emitted (key : Option String) (obj : Val) : Effect
  /-- The call `resolve(retObj)` of the spawn promise. -/
  | ready : Effect
  /-- The call `reject(reason)` of the spawn promise. -/
  | spawnRejected (reason : Val) : Effect
  /-- The call `console.error(err)`. -/
  | logged (err : Val) : Effect

/-- The mirror value the mapper builds: call stubs inside fresh arrays and
objects.  A stub is the closure `fn`; it is determined by its `newPathParts`. -/
inductive Mirror where
  | stub (newPathParts : List String) : Mirror
  | arr (props : List (String × Mirror)) : Mirror
  | obj (props : List (String × Mirror)) : Mirror

/-- The assignment `parent[key] = value` on the properties of a container. -/
def setProp (props : List (String × Mirror)) (key : String) (value : Mirror) :
    List (String × Mirror) :=
  match props with
  | [] => [(key, value)]
  | (k, v) :: rest => if k = key then (k, value) :: rest else (k, v) :: setProp rest key value

/-- The read `parent[key]` on the properties of a container. -/
def readProp (props : List (String × Mirror)) (key : String) : Option Mirror :=
  match props with
  | [] => none
  | (k, v) :: rest => if k = key then some v else readProp rest key

/-- The path `newPathParts`: `[...pathParts, obj.key]` when `obj.key` is truthy,
`pathParts` otherwise. -/
def extendPath (pathParts : List String) (key : Option String) : List String :=
  if truthyStr key then pathParts ++ [key.getD ""] else pathParts

mutual
/-- The function `mapper(obj, parent, pathParts)`; `parent` is given by its
properties.  The result is what they are when the call ends, and the error if
it ends by throwing. -/
def mapper (obj : ExportNode) (parent : List (String × Mirror)) (pathParts : List String) :
    List (String × Mirror) × Option CoordError :=
  match obj with
  | .mk type key children =>
    if type = "Array" then
      if truthyStr key then
        -- parent[obj.key] = []; newParent = parent[obj.key];
        let filled := mapperChildren children [] (extendPath pathParts key)
        (setProp parent (key.getD "") (.arr filled.1), filled.2)
      else mapperChildren children parent (extendPath pathParts key)
    else if type = "Object" then
      if truthyStr key then
        -- parent[obj.key] = {}; newParent = parent[obj.key];
        let filled := mapperChildren children [] (extendPath pathParts key)
        (setProp parent (key.getD "") (.obj filled.1), filled.2)
      else mapperChildren children parent (extendPath pathParts key)
    else if type = "Function" ∨ type = "AsyncFunction" ∨ type = "Promise" then
      if truthyStr key then
        -- if (functionName) parent[functionName] = fn;
        (setProp parent (key.getD "") (.stub (extendPath pathParts key)), none)
      else
        -- else parent = fn;  (rebinds the parameter only)
        (parent, none)
    else (parent, none)
/-- The loop `for (let el of obj.children) mapper(el, newParent, newPathParts)`;
an absent `children` is not iterable. -/
def mapperChildren (children : Option (List ExportNode)) (newParent : List (String × Mirror))
    (newPathParts : List String) : List (String × Mirror) × Option CoordError :=
  match children with
  | none => (newParent, some (.undefinedAccess "obj.children"))
  | some els => mapperAll els newParent newPathParts
/-- The iterations of that loop over the elements `els`. -/
def mapperAll (els : List ExportNode) (newParent : List (String × Mirror))
    (newPathParts : List String) : List (String × Mirror) × Option CoordError :=
  match els with
  | [] => (newParent, none)
  | el :: rest =>
    match mapper el newParent newPathParts with
    | (updated, some e) => (updated, some e)
    | (updated, none) => mapperAll rest updated newPathParts
end

/-- The pending-call table `returnResolvers[id]`: the own entry. -/
def lookupResolver (table : List (String × Nat)) (id : String) : Option Nat :=
  match table with
  | [] => none
  | (k, p) :: rest => if k = id then some p else lookupResolver rest id

/-- The statement `delete returnResolvers[id]`. -/
def deleteResolver (table : List (String × Nat)) (id : String) : List (String × Nat) :=
  match table with
  | [] => []
  | (k, p) :: rest => if k = id then rest else (k, p) :: deleteResolver rest id

/-- The assignment `returnResolvers[id] = {resolve, reject}`. -/
def setResolver (table : List (String × Nat)) (id : String) (promise : Nat) :
    List (String × Nat) :=
  match table with
  | [] => [(id, promise)]
  | (k, p) :: rest =>
    if k = id then (k, promise) :: rest else (k, p) :: setResolver rest id promise

/-- Names every plain object inherits from `Object.prototype`; `returnResolvers`
is created as `{}`. -/
def objectPrototypeNames : List String :=
  ["constructor", "__defineGetter__", "__defineSetter__", "hasOwnProperty",
   "__lookupGetter__", "__lookupSetter__", "isPrototypeOf", "propertyIsEnumerable",
   "toString", "valueOf", "__proto__", "toLocaleString"]

/-- The argument `msg.result ? JSON.parse(msg.result) : undefined`. -/
def parsedResult (result : Option String) : Except CoordError Val :=
  match result with
  | none => .ok .undefined
  | some text =>
    if truthyStr (some text) then
      match JSON.parse text with
      | none => .error (.syntaxError text)
      | some v => .ok v
    else .ok .undefined

/-- The coordinator's record of one spawned worker: the closure variables of
one `runWorker` call and the state of `retObj` the handlers read. -/
structure Handle where
  /-- The parameter `workerJsFile`. -/
  workerJsFile : String
  /-- The table `returnResolvers`: correlation id to the promise of the call. -/
  returnResolvers : List (String × Nat)
  /-- What `retObj.isDead()` returns. -/
  isDead : Bool
  /-- The properties the mapper has put on `retObj`. -/
  mirror : List (String × Mirror)

/-- The handle right after `cluster.fork`. -/
def Handle.fresh (workerJsFile : String) : Handle :=
  { workerJsFile := workerJsFile, returnResolvers := [], isDead := false, mirror := [] }

/-- How a handler of the coordinator ends: the handle as it is then, what the
handler did, and the error if it ended by throwing. -/
structure Step where
  handle : Handle
  effects : List Effect
  raised : Option CoordError

/-- The `call-ret` branch of the coordinator's message handler, entered when
`msg.cmd == 'call-ret' && msg.id` holds. -/
def runWorker.onCallRet (h : Handle) (msg : Msg) (id : String) : Step :=
  match lookupResolver h.returnResolvers id with
  | some promise =>
    if truthy msg.error then
      { handle := { h with returnResolvers := deleteResolver h.returnResolvers id },
        effects := [.rejected promise msg.error], raised := none }
    else
      match parsedResult msg.result with
      | .error e => { handle := h, effects := [], raised := some e }
      | .ok value =>
        { handle := { h with returnResolvers := deleteResolver h.returnResolvers id },
          effects := [.resolved promise value], raised := none }
  | none =>
    if objectPrototypeNames.contains id then
      -- an inherited member is found: it has no `reject` and no `resolve`
      if truthy msg.error then
        { handle := h, effects := [],
          raised := some (.notAFunction "returnResolvers[msg.id].reject") }
      else
        match parsedResult msg.result with
        | .error e => { handle := h, effects := [], raised := some e }
        | .ok _ =>
          { handle := h, effects := [],
            raised := some (.notAFunction "returnResolvers[msg.id].resolve") }
    else { handle := h, effects := [], raised := some (.answeredFunction msg) }

/-- The `content` branch of the coordinator's message handler. -/
def runWorker.onContent (h : Handle) (msg : Msg) : Step :=
  match msg.tree with
  | none => { handle := h, effects := [], raised := some (.undefinedAccess "obj.key") }
  | some tree =>
    match mapper tree h.mirror [] with
    | (mirror, some e) => { handle := { h with mirror := mirror }, effects := [], raised := some e }
    | (mirror, none) => { handle := { h with mirror := mirror }, effects := [.ready], raised := none }

/-- The handler `retObj.on('message', (msg) => ...)`. -/
def runWorker.onMessage (h : Handle) (msg : Msg) : Step :=
  if msg.ref ≠ REF then { handle := h, effects := [], raised := none }
  else if msg.cmd = "emit" then
    { handle := h, effects := [.emitted msg.key msg.obj], raised := none }
  else if msg.cmd = "call-ret" ∧ truthyStr msg.id = true then
    runWorker.onCallRet h msg (msg.id.getD "")
  else if msg.cmd = "content" then runWorker.onContent h msg
  else { handle := h, effects := [], raised := none }

/-- One character of the base64 alphabet. -/
def base64Char (n : Nat) : Char :=
  if n < 26 then Char.ofNat (65 + n)
  else if n < 52 then Char.ofNat (71 + n)
  else if n < 62 then Char.ofNat (n - 4)
  else if n = 62 then '+'
  else '/'

/-- The conversion `buffer.toString('base64')` of a list of bytes. -/
def base64 : List Nat → List Char
  | [] => []
  | [a] => [base64Char (a / 4), base64Char (a % 4 * 16), '=', '=']
  | [a, b] => [base64Char (a / 4), base64Char (a % 4 * 16 + b / 16), base64Char (b % 16 * 4), '=']
  | a :: b :: c :: rest =>
    base64Char (a / 4) :: base64Char (a % 4 * 16 + b / 16) ::
      base64Char (b % 16 * 4 + c / 64) :: base64Char (c % 64) :: base64 rest

/-- The call stub `fn` the mapper creates for the path `fnName`, invoked with
`args`; `promise` names the promise it returns and `entropy` is what
`crypto.randomBytes` returns if it is called. -/
def stubCall (h : Handle) (entropy : Nat → List Nat) (fnName : List String) (args : List Val)
    (promise : Nat) : Handle × List Effect :=
  if !h.isDead then
    let randx := String.mk (base64 (entropy (3 * 4)))
    ({ h with returnResolvers := setResolver h.returnResolvers randx promise },
      [.randomBytes (3 * 4), .sentToWorker (Msg.call randx fnName args)])
  else
    (h, [.rejected promise (.str ("worker '" ++ h.workerJsFile ++ "' not available"))])

/-- The handler `retObj.on('exit', () => ...)`: every value of
`returnResolvers` has its `reject` called with a new error. -/
def runWorker.onExit (stackOf : String → String) (h : Handle) : Handle × List Effect :=
  (h, h.returnResolvers.map fun entry =>
    Effect.rejected entry.2 (mkError stackOf "Error" "Worker exited."))

/-- The handles of the coordinator process, one per `runWorker` call. -/
abbrev Coordinator := List Handle

/-- The exit event of the worker of handle `i`: the cluster marks the worker
dead and the handle's own exit handler runs. -/
def Coordinator.exit (stackOf : String → String) (c : Coordinator) (i : Nat) :
    Coordinator × List Effect :=
  match c.get? i with
  | none => (c, [])
  | some h =>
    let r := runWorker.onExit stackOf { h with isDead := true }
    (c.set i r.1, r.2)

/-! ## Event bridge, bootstrap and supervision -/

/-- The event names `sendToMaster` and `sendToWorker` refuse. -/
def reservedKeys : List String :=
  ["disconnect", "exit", "fork", "listening", "message", "online", "setup"]

/-- The message of the error for a reserved key. -/
def reservedMessage (key : String) : String :=
  "'" ++ key ++ "' is a reserved message keyword"

/-- The function `sendToMaster(key, msg)`, run in the worker: the test
`~[...].indexOf(key)` holds when the key is in the list. -/
def sendToMaster (stackOf : String → String) (key : String) (msg : Val) : List WorkerEvent :=
  if reservedKeys.contains key then
    [.raised (mkError stackOf "Error" (reservedMessage key))]
  else [.sent (Msg.emit key msg)]

/-- The start of `_runWorkerHandler(workerJsFile)`: `load` is what
`require(workerJsFile)` gives, the exports or a thrown value.  After
`process.exit(1)` nothing more runs. -/
def _runWorkerHandler (env : WorkerEnv) (load : Except Val Val) : List WorkerEvent :=
  match load with
  | .error err =>
    match convertErrorToPlainObj env.stackOf err with
    | .error e => [.printed err, .raised e]
    | .ok plain => .printed err :: (sendToMaster env.stackOf "error" plain ++ [.exited 1])
  | .ok requiredWorker =>
    [.registered, .sent (_runWorkerHandler.announce requiredWorker)]

/-- The method `sendToWorker(key, message)` of the handle.  Its second statement
is `reObj.send({ref: REF, cmd: 'emit', key: key, obj: msg})`: the names `reObj`
and `msg` are declared nowhere, so evaluating `reObj` throws a ReferenceError
before anything is sent, and the parameter `message` is never read. -/
def runWorker.sendToWorker (h : Handle) (key : String) (_message : Val) : Step :=
  if reservedKeys.contains key then
    { handle := h, effects := [], raised := some (.reserved key) }
  else { handle := h, effects := [], raised := some (.referenceError "reObj") }

/-- The text of a value as the right operand of `'...' + value`.  Exact for
`undefined`, `null`, booleans, integers and strings; an object operand is
converted by its own `toString`, which the model does not follow, and stands as
`[object Object]`. -/
def concatText : Val → String
  | .undefined => "undefined"
  | .null => "null"
  | .bool true => "true"
  | .bool false => "false"
  | .num n => String.mk (numberText n)
  | .str s => s
  | _ => "[object Object]"

/-- The values `concatText` converts exactly: `undefined`, `null`, booleans,
numbers and strings. -/
def isPrimitive : Val → Bool
  | .undefined => true
  | .null => true
  | .bool _ => true
  | .num _ => true
  | .str _ => true
  | _ => false

/-- The handler `retObj.on('error', function(err) ...)`: the error is printed
and the spawn promise is rejected; reading `err.message` of `undefined` or
`null` throws inside the `try`, whose `catch` is empty. -/
def runWorker.onError (stackOf : String → String) (err : Val) : List Effect :=
  match getProp stackOf err "message" with
  | .error _ => [.logged err]
  | .ok message =>
    [.logged err,
      .spawnRejected (mkError stackOf "Error" ("Could not initialize worker. " ++
        concatText message))]

/-- What the listeners `runWorker` registered on `retObj` do when the event
`key` is emitted with `obj`: the error handler for `error`, the exit handler for
`exit`, nothing for a name only the application listens to.  Outside the model:
the respawn listener, which exists with `enableRespawn` only, and the message
handler run on a payload emitted under the name `message`. -/
def runWorker.listeners (stackOf : String → String) (h : Handle) (key : Option String)
    (obj : Val) : List Effect :=
  if key = some "error" then runWorker.onError stackOf obj
  else if key = some "exit" then (runWorker.onExit stackOf h).2
  else []

/-- The effects of a handler run with every call `retObj.emit(key, obj)` followed
by what the registered listeners do. -/
def runWorker.withListeners (stackOf : String → String) (h : Handle) (effects : List Effect) :
    List Effect :=
  match effects with
  | [] => []
  | .emitted key obj :: rest =>
    .emitted key obj :: (runWorker.listeners stackOf h key obj ++
      runWorker.withListeners stackOf h rest)
  | e :: rest => e :: runWorker.withListeners stackOf h rest

/-- Whether an effect settles the spawn promise. -/
def Effect.settlesSpawn (e : Effect) : Bool :=
  match e with
  | .ready => true
  | .spawnRejected _ => true
  | _ => false

/-- The number of random bytes an effect draws. -/
def Effect.bytesDrawn (e : Effect) : Nat :=
  match e with
  | .randomBytes n => n
  | _ => 0

/-- Whether an effect settles the promise `promise`. -/
def Effect.settles (e : Effect) (promise : Nat) : Bool :=
  match e with
  | .resolved p _ => decide (p = promise)
  | .rejected p _ => decide (p = promise)
  | _ => false

/-- The messages `msgs` delivered to the handler one after the other; delivery
stops at the first handler run that throws. -/
def runWorker.onMessages (h : Handle) (msgs : List Msg) : Step :=
  match msgs with
  | [] => { handle := h, effects := [], raised := none }
  | msg :: rest =>
    let first := runWorker.onMessage h msg
    match first.raised with
    | some e => { handle := first.handle, effects := first.effects, raised := some e }
    | none =>
      let later := runWorker.onMessages first.handle rest
      { handle := later.handle, effects := first.effects ++ later.effects, raised := later.raised }

/-- The settlement a call-ret envelope asks for, for the promise registered
under its id in `table`: a rejection with the carried error, or a resolution
with the parsed result. -/
def settlement (table : List (String × Nat)) (msg : Msg) : Effect :=
  let promise := (lookupResolver table (msg.id.getD "")).getD 0
  if truthy msg.error then .rejected promise msg.error
  else
    match parsedResult msg.result with
    | .ok value => .resolved promise value
    | .error _ => .resolved promise .undefined

/-- The value at a key path of the mirror, read from the handle: the empty path
is the handle itself, a key descends into a container. -/
def mirrorAt (props : List (String × Mirror)) (path : List String) : Option Mirror :=
  match path with
  | [] => some (.obj props)
  | k :: rest =>
    match readProp props k with
    | none => none
    | some (.stub p) => if rest = [] then some (.stub p) else none
    | some (.arr inner) => if rest = [] then some (.arr inner) else mirrorAt inner rest
    | some (.obj inner) => if rest = [] then some (.obj inner) else mirrorAt inner rest

/-- The node types the mapper turns into call stubs. -/
def isStubType (t : String) : Prop :=
  t = "Function" ∨ t = "AsyncFunction" ∨ t = "Promise"

/-- The first of the children `els` whose key is `k`. -/
def findChild (els : List ExportNode) (k : String) : Option ExportNode :=
  match els with
  | [] => none
  | el :: rest => if el.key = some k then some el else findChild rest k

/-- The node of an export tree at a path of keys from its root. -/
def nodeAt (n : ExportNode) (path : List String) : Option ExportNode :=
  match path with
  | [] => some n
  | k :: rest =>
    match n.children with
    | none => none
    | some els =>
      match findChild els k with
      | none => none
      | some c => nodeAt c rest

/-- What the mapper assigns to `parent[obj.key]` for a node with a truthy key:
a fresh container filled from the children, a stub bound to the path, or
nothing for any other type. -/
def placed (obj : ExportNode) (pathParts : List String) : Option Mirror :=
  match obj with
  | .mk type key children =>
    if type = "Array" then
      some (.arr (mapperChildren children [] (extendPath pathParts key)).1)
    else if type = "Object" then
      some (.obj (mapperChildren children [] (extendPath pathParts key)).1)
    else if type = "Function" ∨ type = "AsyncFunction" ∨ type = "Promise" then
      some (.stub (extendPath pathParts key))
    else none

/-- Export trees in which exactly the Array and Object nodes have children and
the children of one node carry distinct, non-empty keys. -/
inductive TreeWF : ExportNode → Prop where
  | leaf (t : String) (k : Option String) :
    t ≠ "Array" → t ≠ "Object" → TreeWF (.mk t k none)
  | node (t : String) (k : Option String) (els : List ExportNode) :
    (t = "Array" ∨ t = "Object") →
    (∀ el ∈ els, ∃ key, el.key = some key ∧ key ≠ "") →
    (els.map ExportNode.key).Nodup →
    (∀ el ∈ els, TreeWF el) → TreeWF (.mk t k (some els))

/-- Values in which the enumerable members of every object have distinct,
non-empty names. -/
inductive ValWF : Val → Prop where
  | undefined : ValWF .undefined
  | null : ValWF .null
  | bool (b : Bool) : ValWF (.bool b)
  | num (n : Int) : ValWF (.num n)
  | str (s : String) : ValWF (.str s)
  | fn (isAsync : Bool) (id : Nat) : ValWF (.fn isAsync id)
  | promise (id : Nat) : ValWF (.promise id)
  | arr (elems : List Val) : (∀ x ∈ elems, ValWF x) → ValWF (.arr elems)
  | obj (cls : String) (members : List (String × Bool × Val)) :
    (∀ m ∈ members, m.2.1 = true → m.1 ≠ "") →
    ((members.filter fun m => m.2.1).map fun m => m.1).Nodup →
    (∀ m ∈ members, ValWF m.2.2) → ValWF (.obj cls members)

/-- The pending-call table of a handle as stubs leave it: distinct ids, none of
them empty. -/
def Handle.tableWF (h : Handle) : Prop :=
  (h.returnResolvers.map Prod.fst).Nodup ∧ ∀ e ∈ h.returnResolvers, e.1 ≠ ""

/-- The values of the serialisation format: null, booleans, integers a number
holds exactly, strings, lists of such values, and plain records whose members
are enumerable, distinctly named and themselves such values. -/
inductive JsonValue : Val → Prop where
  | null : JsonValue .null
  | bool (b : Bool) : JsonValue (.bool b)
  | num (n : Int) : n.natAbs < 2 ^ 53 → JsonValue (.num n)
  | str (s : String) : JsonValue (.str s)
  | arr (elems : List Val) : (∀ x ∈ elems, JsonValue x) → JsonValue (.arr elems)
  | obj (members : List (String × Bool × Val)) :
    (∀ m ∈ members, m.2.1 = true) →
    (members.map fun m => m.1).Nodup →
    (∀ m ∈ members, JsonValue m.2.2) → JsonValue (.obj "Object" members)

/-- What may follow a value inside a JSON text: nothing, a comma, or a closing
bracket or brace. -/
def delimited (rest : List Char) : Prop :=
  ∀ c cs, rest = c :: cs → c = ',' ∨ c = ']' ∨ c = rbrace

/-- The serialisation of `v` exists, starts a value, and is parsed back to `v`
in front of anything that may follow a value. -/
def parsesBack (v : Val) : Prop :=
  ∃ t, serialize v = some t ∧
    (∃ c cs, t = c :: cs ∧ isWs c = false ∧ c ≠ ']') ∧
    ∀ fuel rest, 2 * t.length ≤ fuel → delimited rest →
      parseValue fuel (t ++ rest) = some (v, rest)

/-- Reference classifier of the export map builder, written from the
specification: the kind of the value decides the node and a leaf has no
children.  A dense list of n elements without further properties has n children,
child i built from element i under the decimal text of i (`Nat.repr`).  A list
with holes or further properties has one child per position that holds an
element, in ascending order under the decimal text of that position, followed by
one child per enumerable named property.  A record has one child per enumerable
member, keyed by the member name. -/
def referenceClassifier (v : Val) (k : Option String) : ExportNode :=
  match v with
  | .fn false _ => .mk "Function" k none
  | .fn true _ => .mk "AsyncFunction" k none
  | .promise _ => .mk "Promise" k none
  | .null => .mk "null" k none
  | .arr elems =>
    .mk "Array" k (some (List.ofFn fun i : Fin elems.length =>
      buildMap (elems.get i) (some (Nat.repr i.val))))
  | .arrWith slots named =>
    .mk "Array" k (some
      (((List.range slots.length).filterMap fun i =>
          (slots.getD i none).map fun x => buildMap x (some (Nat.repr i))) ++
        ((named.filter fun m => m.2.1).map fun m => buildMap m.2.2 (some m.1))))
  | .obj _ members =>
    .mk "Object" k (some ((members.filter fun m => m.2.1).map fun m =>
      buildMap m.2.2 (some m.1)))
  | other => .mk (typeof other) k none

/-! ## Representable values and example inputs -/

/-- A value is JSON-representable when parsing its serialisation gives the value
back: `JSON.parse(JSON.stringify(v)) = v`. -/
def jsonRepresentable (v : Val) : Prop :=
  ∃ text, JSON.stringify v = some text ∧ JSON.parse text = some v

/-- The module of the example in the documentation of `buildMap`: a namespace
with the default export of `worker.js` and two more members. -/
def docstringModule : Val :=
  .obj "Module"
    [("default", true, .obj "Object"
        [("action1", true, .fn true 0), ("action2", true, .fn false 1),
          ("action3", true, .promise 0),
          ("namespace", true, .obj "Object" [("sub1", true, .fn false 2)]),
          ("list", true, .arr [.fn false 3, .fn false 4]),
          ("x", true, .num 1), ("y", true, .str "abc"), ("z", true, .bool true),
          ("v1", true, .null), ("exit", true, .fn false 5), ("error", true, .fn false 6)]),
      ("test", true, .fn false 7), ("z", true, .str "zzz")]

/-- A worker environment for the examples: function 0 returns the number 0,
function 1 returns the member `y` of its receiver, function 2 throws
`undefined`, functions 3, 4 and 5 return `false`, the empty string and `null`,
every other function returns `undefined`. -/
def demoEnv : WorkerEnv where
  impl := fun id receiver _ =>
    match id with
    | 0 => .returns (.num 0)
    | 1 =>
      match getProp (fun _ => "") receiver "y" with
      | .ok y => .returns y
      | .error e => .throws e
    | 2 => .throws .undefined
    | 3 => .returns (.bool false)
    | 4 => .returns (.str "")
    | 5 => .returns .null
    | _ => .returns .undefined
  stackOf := fun _ => ""
  workerJsFile := "worker.js"

/-- A loaded module for the examples:
`{y: "abc", zero, getY: function () { return this.y }, boom, no, empty, nothing, nil}`. -/
def demoWorker : Val :=
  .obj "Object" [("y", true, .str "abc"), ("zero", true, .fn false 0),
    ("getY", true, .fn false 1), ("boom", true, .fn true 2), ("no", true, .fn false 3),
    ("empty", true, .fn true 4), ("nothing", true, .fn false 5), ("nil", true, .fn false 6)]

/-- A handle with one pending call, promise 7 under the id `AAAAAAAAAAAAAAAA`. -/
def demoHandle : Handle :=
  { workerJsFile := "worker.js", returnResolvers := [("AAAAAAAAAAAAAAAA", 7)],
    isDead := false, mirror := [] }

/-- A handle with two pending calls. -/
def demoHandle2 : Handle :=
  { workerJsFile := "worker.js",
    returnResolvers := [("AAAAAAAAAAAAAAAA", 7), ("BBBBBBBBBBBBBBBB", 8), ("CCCCCCCCCCCCCCCC", 9)],
    isDead := false, mirror := [] }

/-! ## Export map builder: proofs -/

theorem digitChar_eq (d : Nat) (h : d < 10) : digitChar d = Nat.digitChar d := by
  have h9 : d = 0 ∨ d = 1 ∨ d = 2 ∨ d = 3 ∨ d = 4 ∨ d = 5 ∨ d = 6 ∨ d = 7 ∨ d = 8 ∨ d = 9 := by
    omega
  rcases h9 with rfl | rfl | rfl | rfl | rfl | rfl | rfl | rfl | rfl | rfl <;> rfl

theorem decimalAux_eq_toDigitsCore (fuel n : Nat) (acc : List Char) :
    decimalAux fuel n acc = Nat.toDigitsCore 10 fuel n acc := by
  induction fuel generalizing n acc with
  | zero => rfl
  | succ fuel ih =>
    rw [decimalAux, Nat.toDigitsCore]
    by_cases h : n < 10
    · have hq : n / 10 = 0 := by omega
      have hr : n % 10 = n := by omega
      simp only [h, hq, hr, ↓reduceIte, digitChar_eq n h]
    · have hq : n / 10 ≠ 0 := by omega
      simp only [h, hq, ↓reduceIte, ih, digitChar_eq (n % 10) (Nat.mod_lt _ (by omega))]

/-- The key the loop gives array position `i` is the decimal numeral of `i` of
the standard library. -/
theorem indexKey_eq_repr (i : Nat) : indexKey i = Nat.repr i := by
  simp only [indexKey, decimal, Nat.repr, Nat.toDigits, List.asString,
    decimalAux_eq_toDigitsCore]

/-- Sample keys: no leading zero, no sign, base ten. -/
theorem indexKey_samples :
    indexKey 0 = "0" ∧ indexKey 7 = "7" ∧ indexKey 10 = "10" ∧ indexKey 409 = "409" := by
  refine ⟨rfl, rfl, rfl, rfl⟩

theorem buildMapSlots_eq_filterMap (slots : List (Option Val)) (i : Nat) :
    buildMapSlots slots i =
      (List.range slots.length).filterMap fun j =>
        (slots.getD j none).map fun x => buildMap x (some (indexKey (i + j))) := by
  induction slots generalizing i with
  | nil => simp [buildMapSlots]
  | cons slot rest ih =>
    have hshift : ∀ j, i + 1 + j = i + (j + 1) := fun j => by omega
    cases slot with
    | none =>
      rw [buildMapSlots, ih (i + 1)]
      simp [List.range_succ_eq_map, List.filterMap_map, Function.comp_def, hshift]
    | some x =>
      rw [buildMapSlots, ih (i + 1)]
      simp [List.range_succ_eq_map, List.filterMap_map, Function.comp_def, hshift]

/-- An array without holes and without named properties has the same export map
in either representation. -/
theorem buildMapSlots_dense (elems : List Val) (i : Nat) :
    buildMapSlots (elems.map some) i = buildMapElems elems i := by
  induction elems generalizing i with
  | nil => simp [buildMapSlots, buildMapElems]
  | cons x rest ih => simp [buildMapSlots, buildMapElems, ih]

theorem buildMapElems_eq_ofFn (elems : List Val) (i : Nat) :
    buildMapElems elems i =
      List.ofFn fun j : Fin elems.length => buildMap (elems.get j) (some (indexKey (i + j.val))) := by
  induction elems generalizing i with
  | nil => simp [buildMapElems]
  | cons x rest ih =>
    rw [buildMapElems, ih (i + 1)]
    simp only [List.length_cons, List.ofFn_succ, Fin.val_zero, Nat.add_zero, List.get_eq_getElem,
      List.getElem_cons_zero, Fin.val_succ, List.getElem_cons_succ]
    congr 1
    congr 1
    funext j
    congr 3
    omega

theorem buildMapMembers_eq_map (members : List (String × Bool × Val)) :
    buildMapMembers members =
      (members.filter fun m => m.2.1).map fun m => buildMap m.2.2 (some m.1) := by
  induction members with
  | nil => simp [buildMapMembers]
  | cons m rest ih =>
    obtain ⟨name, enumerable, x⟩ := m
    cases enumerable <;> simp [buildMapMembers, ih]

/-- The embedding of `buildMap` by cases is the `if`/`else if` chain of the
source, test by test. -/
theorem buildMap_branches (obj : Val) (_key : Option String) :
    buildMap obj _key =
      if instanceofFunction obj && !instanceofAsyncFunction obj then .mk "Function" _key none
      else if instanceofAsyncFunction obj then .mk "AsyncFunction" _key none
      else if instanceofPromise obj then .mk "Promise" _key none
      else if isArray obj then
        .mk "Array" _key
          (some (buildMapSlots (arraySlots obj) 0 ++ buildMapMembers (arrayNamed obj)))
      else if typeof obj = "object" ∧ isNull obj = false then
        .mk "Object" _key (some (buildMapMembers (ownMembers obj)))
      else if isNull obj then .mk "null" _key none
      else .mk (typeof obj) _key none := by
  cases obj with
  | fn isAsync id => cases isAsync <;> rfl
  | arr elems =>
    simp [buildMap, instanceofFunction, instanceofAsyncFunction, instanceofPromise, isArray,
      arraySlots, arrayNamed, buildMapSlots_dense, buildMapMembers]
  | _ => rfl

/-- The example in the documentation of `buildMap` is what `buildMap` computes. -/
theorem buildMap_docstring_example :
    buildMap docstringModule none =
      .mk "Object" none (some
        [.mk "Object" (some "default") (some
            [.mk "AsyncFunction" (some "action1") none,
              .mk "Function" (some "action2") none,
              .mk "Promise" (some "action3") none,
              .mk "Object" (some "namespace") (some [.mk "Function" (some "sub1") none]),
              .mk "Array" (some "list") (some
                [.mk "Function" (some "0") none, .mk "Function" (some "1") none]),
              .mk "number" (some "x") none,
              .mk "string" (some "y") none,
              .mk "boolean" (some "z") none,
              .mk "null" (some "v1") none,
              .mk "Function" (some "exit") none,
              .mk "Function" (some "error") none]),
          .mk "Function" (some "test") none,
          .mk "string" (some "z") none]) := by
  rfl

/-- C3: `buildMap(v, k)` is the reference classifier: a function, async
function, promise, null or other non-object value gives a leaf without children
of type Function, AsyncFunction, Promise, null or `typeof v`; an array gives an
Array node with one child per key its `for .. in` enumeration visits: for a
dense array of n elements without further properties exactly n children, child i
being `buildMap(element i, decimal numeral of i)`, and for an array with holes
or further properties one child per position that holds an element, in ascending
order under the decimal numeral of that position, followed by one child
`buildMap(value, name)` per enumerable named property; any other object gives an
Object node with one child `buildMap(member value, member name)` per enumerable
member, in enumeration order. -/
theorem buildMap_eq_referenceClassifier (v : Val) (k : Option String) :
    buildMap v k = referenceClassifier v k := by
  cases v with
  | fn isAsync id => cases isAsync <;> rfl
  | arr elems =>
    simp only [buildMap, referenceClassifier, buildMapElems_eq_ofFn, Nat.zero_add,
      indexKey_eq_repr]
  | arrWith slots named =>
    simp only [buildMap, referenceClassifier, buildMapSlots_eq_filterMap, Nat.zero_add,
      indexKey_eq_repr, buildMapMembers_eq_map]
  | obj cls members =>
    simp only [buildMap, referenceClassifier, buildMapMembers_eq_map]
  | _ => rfl

/-- C3, counterexample: an array is not always mapped to as many children as it
has elements, child i under the numeral of i.  The array `[f]` that also has the
enumerable property `helper` (as `Object.assign([f], {helper: g})` builds
it) has one element and two children; the array `[ , f]`, whose position 0 is a
hole, has length 2 and a single child, in first place under the key `1`. -/
theorem buildMap_array_children_follow_enumeration :
    (arraySlots (.arrWith [some (.fn false 0)] [("helper", true, .fn false 1)])).length = 1 ∧
      buildMap (.arrWith [some (.fn false 0)] [("helper", true, .fn false 1)]) (some "list") =
        .mk "Array" (some "list")
          (some [.mk "Function" (some "0") none, .mk "Function" (some "helper") none]) ∧
      (arraySlots (.arrWith [none, some (.fn false 0)] [])).length = 2 ∧
      buildMap (.arrWith [none, some (.fn false 0)] []) (some "list") =
        .mk "Array" (some "list") (some [.mk "Function" (some "1") none]) := by
  refine ⟨rfl, rfl, rfl, rfl⟩

/-! ## Serialisation: proofs -/

theorem decimalAux_ne_nil (fuel n : Nat) (acc : List Char) (h : acc ≠ [] ∨ 0 < fuel) :
    decimalAux fuel n acc ≠ [] := by
  induction fuel generalizing n acc with
  | zero =>
    rcases h with h | h
    · simpa [decimalAux] using h
    · omega
  | succ fuel ih =>
    rw [decimalAux]
    split
    · simp
    · exact ih _ _ (Or.inl (by simp))

theorem decimal_ne_nil (n : Nat) : decimal n ≠ [] :=
  decimalAux_ne_nil _ _ _ (Or.inr (Nat.succ_pos n))

theorem decimalAux_fuel (n : Nat) :
    ∀ f1 f2 acc, n < f1 → n < f2 → decimalAux f1 n acc = decimalAux f2 n acc := by
  induction n using Nat.strong_induction_on with
  | _ n ih =>
    intro f1 f2 acc h1 h2
    obtain ⟨a, rfl⟩ : ∃ a, f1 = a + 1 := ⟨f1 - 1, by omega⟩
    obtain ⟨b, rfl⟩ : ∃ b, f2 = b + 1 := ⟨f2 - 1, by omega⟩
    rw [decimalAux, decimalAux]
    split
    · rfl
    · exact ih (n / 10) (by omega) _ _ _ (by omega) (by omega)

theorem decimalAux_acc (fuel n : Nat) (acc : List Char) :
    decimalAux fuel n acc = decimalAux fuel n [] ++ acc := by
  induction fuel generalizing n acc with
  | zero => simp [decimalAux]
  | succ fuel ih =>
    rw [decimalAux, decimalAux]
    split
    · simp
    · rw [ih _ (digitChar (n % 10) :: acc), ih _ [digitChar (n % 10)]]
      simp

theorem decimal_lt (n : Nat) (h : n < 10) : decimal n = [digitChar n] := by
  simp [decimal, decimalAux, h]

theorem decimal_ge (n : Nat) (h : 10 ≤ n) :
    decimal n = decimal (n / 10) ++ [digitChar (n % 10)] := by
  have hlt : ¬ n < 10 := by omega
  rw [decimal, decimalAux]
  simp only [hlt, ↓reduceIte]
  rw [decimalAux_acc, decimal]
  rw [decimalAux_fuel (n / 10) n (n / 10 + 1) [] (by omega) (by omega)]

theorem digitChar_toNat (d : Nat) (h : d < 10) : (digitChar d).toNat = 48 + d := by
  have h9 : d = 0 ∨ d = 1 ∨ d = 2 ∨ d = 3 ∨ d = 4 ∨ d = 5 ∨ d = 6 ∨ d = 7 ∨ d = 8 ∨ d = 9 := by
    omega
  rcases h9 with rfl | rfl | rfl | rfl | rfl | rfl | rfl | rfl | rfl | rfl <;> rfl

theorem digitChar_injective (a b : Nat) (ha : a < 10) (hb : b < 10)
    (h : digitChar a = digitChar b) : a = b := by
  have := congrArg Char.toNat h
  rw [digitChar_toNat a ha, digitChar_toNat b hb] at this
  omega

theorem decimal_injective (a : Nat) : ∀ b, decimal a = decimal b → a = b := by
  induction a using Nat.strong_induction_on with
  | _ a ih =>
    intro b h
    by_cases ha : a < 10
    · by_cases hb : b < 10
      · rw [decimal_lt a ha, decimal_lt b hb] at h
        exact digitChar_injective a b ha hb (by simpa using h)
      · rw [decimal_lt a ha, decimal_ge b (by omega)] at h
        have hlen := congrArg List.length h
        have hpos := List.length_pos.mpr (decimal_ne_nil (b / 10))
        simp only [List.length_append, List.length_singleton, List.length_cons,
          List.length_nil] at hlen
        omega
    · by_cases hb : b < 10
      · rw [decimal_ge a (by omega), decimal_lt b hb] at h
        have hlen := congrArg List.length h
        have hpos := List.length_pos.mpr (decimal_ne_nil (a / 10))
        simp only [List.length_append, List.length_singleton, List.length_cons,
          List.length_nil] at hlen
        omega
      · rw [decimal_ge a (by omega), decimal_ge b (by omega)] at h
        have hsplit := List.append_inj' h rfl
        have hq := ih (a / 10) (by omega) (b / 10) hsplit.1
        have hr := digitChar_injective (a % 10) (b % 10) (Nat.mod_lt _ (by omega))
          (Nat.mod_lt _ (by omega)) (by simpa using hsplit.2)
        omega

theorem indexKey_injective (i j : Nat) (h : indexKey i = indexKey j) : i = j :=
  decimal_injective i j (by simpa [indexKey] using congrArg String.data h)

theorem indexKey_ne_empty (i : Nat) : indexKey i ≠ "" := by
  intro h
  exact decimal_ne_nil i (by simpa [indexKey] using congrArg String.data h)

theorem serialize_ne_nil (v : Val) (text : List Char) (h : serialize v = some text) :
    text ≠ [] := by
  cases v with
  | undefined => simp [serialize] at h
  | fn isAsync id => simp [serialize] at h
  | bool b => cases b <;> simp [serialize] at h <;> simp [← h]
  | num n =>
    simp only [serialize, Option.some.injEq] at h
    subst h
    unfold numberText
    split
    · simp
    · exact decimal_ne_nil _
  | _ => (simp [serialize, quoteJSONString] at h; simp [← h])

/-- Every serialisation `JSON.stringify` produces is a non-empty string. -/
theorem stringify_ne_empty (v : Val) (text : String) (h : JSON.stringify v = some text) :
    text ≠ "" := by
  unfold JSON.stringify at h
  cases hs : serialize v with
  | none => simp [hs] at h
  | some chars =>
    simp only [hs, Option.map_some', Option.some.injEq] at h
    subst h
    intro hc
    exact serialize_ne_nil v chars hs (by simpa using congrArg String.data hc)

/-- Serialisations of sample values: falsy scalars, escapes, an array with
elements that have no serialisation, an object with members that are left out. -/
theorem stringify_samples :
    JSON.stringify (.num 0) = some "0" ∧
      JSON.stringify (.num (-120)) = some "-120" ∧
      JSON.stringify (.bool false) = some "false" ∧
      JSON.stringify .null = some "null" ∧
      JSON.stringify (.str "") = some "\"\"" ∧
      JSON.stringify (.str "a\"b\n") = some "\"a\\\"b\\n\"" ∧
      JSON.stringify .undefined = none ∧
      JSON.stringify (.arr [.num 1, .undefined, .fn false 0, .str "x"]) =
        some "[1,null,null,\"x\"]" ∧
      JSON.stringify (.obj "Object" [("a", true, .num 1), ("f", true, .fn false 0),
          ("h", false, .num 1), ("b", true, .arr [])]) =
        some "\x7b\"a\":1,\"b\":[]\x7d" := by
  refine ⟨rfl, rfl, rfl, rfl, rfl, rfl, rfl, rfl, rfl⟩

/-- Parses of sample texts: white space, escapes, a repeated member name, and
texts that are not JSON or not in the model. -/
theorem parse_samples :
    JSON.parse "0" = some (.num 0) ∧
      JSON.parse "null" = some .null ∧
      JSON.parse "" = none ∧
      JSON.parse " [1, null , \"x\\u0041\"] " = some (.arr [.num 1, .null, .str "xA"]) ∧
      JSON.parse "\x7b\"a\":1,\"b\":[],\"a\":\x7b\x7d\x7d" =
        some (.obj "Object" [("a", true, .obj "Object" []), ("b", true, .arr [])]) ∧
      JSON.parse "-12" = some (.num (-12)) ∧
      JSON.parse "1.5" = none ∧
      JSON.parse "01" = none := by
  refine ⟨rfl, rfl, rfl, rfl, rfl, rfl, rfl, rfl⟩

/-! ## Serialisation: parsing gives the value back -/

theorem parseStringBody_escapeChar_control (n : Nat) (hn : n < 32) (rest : List Char) :
    parseStringBody (escapeChar (Char.ofNat n) ++ rest) =
      (parseStringBody rest).map fun r => (Char.ofNat n :: r.1, r.2) := by
  interval_cases n <;> first
    | rfl
    | (rw [parseStringBody.eq_def]; rfl)

theorem parseStringBody_escapeChar (c : Char) (rest : List Char) :
    parseStringBody (escapeChar c ++ rest) =
      (parseStringBody rest).map fun r => (c :: r.1, r.2) := by
  by_cases hc : c.toNat < 32
  · have h := parseStringBody_escapeChar_control c.toNat hc rest
    rwa [Char.ofNat_toNat] at h
  · by_cases h1 : c = dquote
    · subst h1; rw [parseStringBody.eq_def]; rfl
    · by_cases h2 : c = bslash
      · subst h2; rw [parseStringBody.eq_def]; rfl
      · have e : escapeChar c = [c] := by
          unfold escapeChar
          simp only [h1, h2, hc, ↓reduceIte]
          have h8 : c ≠ Char.ofNat 8 := by rintro rfl; exact hc (by decide)
          have h12 : c ≠ Char.ofNat 12 := by rintro rfl; exact hc (by decide)
          have h10 : c ≠ Char.ofNat 10 := by rintro rfl; exact hc (by decide)
          have h13 : c ≠ Char.ofNat 13 := by rintro rfl; exact hc (by decide)
          have h9 : c ≠ Char.ofNat 9 := by rintro rfl; exact hc (by decide)
          simp [h8, h12, h10, h13, h9]
        rw [e]
        simp only [List.singleton_append]
        rw [parseStringBody.eq_def]
        simp only [h1, h2, hc, ↓reduceIte]

theorem parseStringBody_escapeChars (s rest : List Char) :
    parseStringBody (escapeChars s ++ dquote :: rest) = some (s, rest) := by
  induction s with
  | nil =>
    rw [escapeChars, List.nil_append, parseStringBody.eq_def]
    simp
  | cons c cs ih =>
    rw [escapeChars, List.append_assoc, parseStringBody_escapeChar, ih]
    rfl

theorem isDigit_digitChar (d : Nat) (h : d < 10) : isDigit (digitChar d) = true := by
  simp [isDigit, digitChar_toNat d h]
  omega

theorem decimal_all_digits (n : Nat) : ∀ c ∈ decimal n, isDigit c = true := by
  induction n using Nat.strong_induction_on with
  | _ n ih =>
    intro c hc
    by_cases hn : n < 10
    · rw [decimal_lt n hn, List.mem_singleton] at hc
      subst hc
      exact isDigit_digitChar n hn
    · rw [decimal_ge n (by omega), List.mem_append, List.mem_singleton] at hc
      rcases hc with hc | hc
      · exact ih (n / 10) (by omega) c hc
      · subst hc
        exact isDigit_digitChar _ (Nat.mod_lt _ (by omega))

theorem parseDigits_append (ds rest : List Char) (acc : Nat)
    (hds : ∀ c ∈ ds, isDigit c = true) (hrest : ∀ c cs, rest = c :: cs → isDigit c = false) :
    parseDigits (ds ++ rest) acc =
      (ds.foldl (fun a c => a * 10 + (c.toNat - 48)) acc, rest) := by
  induction ds generalizing acc with
  | nil =>
    cases rest with
    | nil => rfl
    | cons c cs => simp [parseDigits, hrest c cs rfl]
  | cons d ds ih =>
    simp only [List.cons_append, parseDigits, hds d (List.mem_cons_self _ _), ↓reduceIte,
      List.foldl_cons]
    exact ih _ (fun c hc => hds c (List.mem_cons_of_mem _ hc))

theorem decimal_value (n : Nat) :
    (decimal n).foldl (fun a c => a * 10 + (c.toNat - 48)) 0 = n := by
  induction n using Nat.strong_induction_on with
  | _ n ih =>
    by_cases hn : n < 10
    · rw [decimal_lt n hn]
      simp [digitChar_toNat n hn]
    · rw [decimal_ge n (by omega), List.foldl_append, ih (n / 10) (by omega)]
      simp only [List.foldl_cons, List.foldl_nil,
        digitChar_toNat (n % 10) (Nat.mod_lt _ (by omega))]
      omega

theorem decimal_head (n : Nat) (hn : 0 < n) :
    ∃ c cs, decimal n = c :: cs ∧ c ≠ '0' := by
  induction n using Nat.strong_induction_on with
  | _ n ih =>
    by_cases h10 : n < 10
    · refine ⟨digitChar n, [], decimal_lt n h10, ?_⟩
      intro h
      have := congrArg Char.toNat h
      rw [digitChar_toNat n h10] at this
      have h0 : ('0' : Char).toNat = 48 := rfl
      omega
    · obtain ⟨c, cs, hcs, hc⟩ := ih (n / 10) (by omega) (by omega)
      exact ⟨c, cs ++ [digitChar (n % 10)], by rw [decimal_ge n (by omega), hcs]; rfl, hc⟩

theorem delimited_not_digit (rest : List Char) (h : delimited rest) :
    ∀ c cs, rest = c :: cs → isDigit c = false := by
  intro c cs hc
  rcases h c cs hc with rfl | rfl | rfl <;> rfl

theorem parseMagnitude_decimal (n : Nat) (rest : List Char) (hrest : delimited rest) :
    parseMagnitude (decimal n ++ rest) = some (n, rest) := by
  have htail : ∀ r : Nat × List Char, r.2 = rest →
      (match r.2 with
        | d :: _ => if d = '.' ∨ d = 'e' ∨ d = 'E' then none else some r
        | [] => some r) = some r := by
    intro r hr
    rw [hr]
    cases hrest' : rest with
    | nil => rfl
    | cons d ds =>
      have := hrest d ds hrest'
      rcases this with rfl | rfl | rfl <;> first | (simp; done) | (simp; decide)
  by_cases hn : n = 0
  · subst hn
    have h0 : decimal 0 = ['0'] := rfl
    rw [h0]
    simp only [List.singleton_append, parseMagnitude]
    have hd : isDigit '0' = true := rfl
    simp only [hd, ↓reduceIte]
    exact htail (0, rest) rfl
  · obtain ⟨c, cs, hcs, hc⟩ := decimal_head n (by omega)
    have hall := decimal_all_digits n
    rw [hcs] at hall
    have hval := decimal_value n
    rw [hcs] at hval
    simp only [List.foldl_cons, Nat.zero_mul, Nat.zero_add] at hval
    rw [hcs]
    simp only [List.cons_append, parseMagnitude, hall c (List.mem_cons_self _ _), ↓reduceIte, hc]
    rw [parseDigits_append cs rest _ (fun d hd => hall d (List.mem_cons_of_mem _ hd))
      (delimited_not_digit rest hrest), hval]
    exact htail (n, rest) rfl

theorem skipWs_cons (c : Char) (cs : List Char) (h : isWs c = false) :
    skipWs (c :: cs) = c :: cs := by
  simp [skipWs, h]

theorem parsesBack_null : parsesBack .null := by
  refine ⟨_, rfl, ⟨'n', _, rfl, rfl, by decide⟩, ?_⟩
  intro fuel rest hfuel _
  obtain ⟨f, rfl⟩ : ∃ f, fuel = f + 1 := ⟨fuel - 1, by simp at hfuel; omega⟩
  rw [parseValue]
  rfl

theorem parsesBack_bool (b : Bool) : parsesBack (.bool b) := by
  cases b
  · refine ⟨_, rfl, ⟨'f', _, rfl, rfl, by decide⟩, ?_⟩
    intro fuel rest hfuel _
    obtain ⟨f, rfl⟩ : ∃ f, fuel = f + 1 := ⟨fuel - 1, by simp at hfuel; omega⟩
    rw [parseValue]
    rfl
  · refine ⟨_, rfl, ⟨'t', _, rfl, rfl, by decide⟩, ?_⟩
    intro fuel rest hfuel _
    obtain ⟨f, rfl⟩ : ∃ f, fuel = f + 1 := ⟨fuel - 1, by simp at hfuel; omega⟩
    rw [parseValue]
    rfl

theorem isDigit_facts (c : Char) (h : isDigit c = true) :
    isWs c = false ∧ c ≠ ']' ∧ c ≠ 'n' ∧ c ≠ 't' ∧ c ≠ 'f' ∧ c ≠ dquote ∧ c ≠ '[' ∧
      c ≠ lbrace ∧ c ≠ '-' := by
  have hne : ∀ k : Char, isDigit k = false → c ≠ k := by
    intro k hk hck
    rw [hck, hk] at h
    exact Bool.false_ne_true h
  refine ⟨?_, hne _ rfl, hne _ rfl, hne _ rfl, hne _ rfl, hne _ rfl, hne _ rfl, hne _ rfl,
    hne _ rfl⟩
  simp [isWs, hne ' ' rfl, hne (Char.ofNat 9) rfl, hne (Char.ofNat 10) rfl,
    hne (Char.ofNat 13) rfl]

theorem parsesBack_num (n : Int) : parsesBack (.num n) := by
  by_cases hneg : n < 0
  · have htext : numberText n = '-' :: decimal n.natAbs := by simp [numberText, hneg]
    refine ⟨numberText n, rfl, ⟨'-', _, htext, rfl, by decide⟩, ?_⟩
    intro fuel rest hfuel hrest
    obtain ⟨f, rfl⟩ : ∃ f, fuel = f + 1 := ⟨fuel - 1, by rw [htext] at hfuel; simp at hfuel; omega⟩
    rw [htext, parseValue]
    have hskip : skipWs (('-' :: decimal n.natAbs) ++ rest) = '-' :: (decimal n.natAbs ++ rest) :=
      skipWs_cons _ _ rfl
    rw [hskip]
    have h1 : ('-' : Char) ≠ 'n' := by decide
    have h2 : ('-' : Char) ≠ 't' := by decide
    have h3 : ('-' : Char) ≠ 'f' := by decide
    have h4 : ('-' : Char) ≠ dquote := by decide
    have h5 : ('-' : Char) ≠ '[' := by decide
    have h6 : ('-' : Char) ≠ lbrace := by decide
    simp only [h1, h2, h3, h4, h5, h6, ↓reduceIte, parseMagnitude_decimal _ rest hrest,
      Option.map_some', Option.some.injEq, Prod.mk.injEq, Val.num.injEq, and_true]
    omega
  · have htext : numberText n = decimal n.toNat := by simp [numberText, hneg]
    have hall := decimal_all_digits n.toNat
    obtain ⟨c, cs, hcs⟩ : ∃ c cs, decimal n.toNat = c :: cs := by
      cases hd : decimal n.toNat with
      | nil => exact absurd hd (decimal_ne_nil _)
      | cons c cs => exact ⟨c, cs, rfl⟩
    have hc := isDigit_facts c (hall c (by rw [hcs]; exact List.mem_cons_self _ _))
    refine ⟨numberText n, rfl, ⟨c, cs, by rw [htext, hcs], hc.1, hc.2.1⟩, ?_⟩
    intro fuel rest hfuel hrest
    obtain ⟨f, rfl⟩ : ∃ f, fuel = f + 1 :=
      ⟨fuel - 1, by rw [htext, hcs] at hfuel; simp at hfuel; omega⟩
    have hmag := parseMagnitude_decimal n.toNat rest hrest
    rw [hcs] at hmag
    rw [htext, hcs, parseValue]
    have hskip : skipWs ((c :: cs) ++ rest) = c :: (cs ++ rest) := skipWs_cons _ _ hc.1
    rw [hskip]
    simp only [hc.2.2.1, hc.2.2.2.1, hc.2.2.2.2.1, hc.2.2.2.2.2.1, hc.2.2.2.2.2.2.1,
      hc.2.2.2.2.2.2.2.1, hc.2.2.2.2.2.2.2.2, ↓reduceIte]
    rw [← List.cons_append, hmag]
    simp only [Option.map_some', Option.some.injEq, Prod.mk.injEq, Val.num.injEq, and_true]
    omega

theorem parsesBack_str (s : String) : parsesBack (.str s) := by
  refine ⟨quoteJSONString s, rfl, ⟨dquote, _, rfl, rfl, by decide⟩, ?_⟩
  intro fuel rest hfuel _
  obtain ⟨f, rfl⟩ : ∃ f, fuel = f + 1 :=
    ⟨fuel - 1, by simp [quoteJSONString] at hfuel; omega⟩
  rw [parseValue]
  have hskip : skipWs (quoteJSONString s ++ rest) =
      dquote :: (escapeChars s.data ++ dquote :: rest) := by
    simp only [quoteJSONString, List.cons_append, List.append_assoc, List.singleton_append]
    exact skipWs_cons _ _ rfl
  rw [hskip]
  have h1 : dquote ≠ 'n' := by decide
  have h2 : dquote ≠ 't' := by decide
  have h3 : dquote ≠ 'f' := by decide
  simp only [h1, h2, h3, ↓reduceIte, parseStringBody_escapeChars, Option.map_some']

theorem delimited_cons (c : Char) (cs : List Char) (h : c = ',' ∨ c = ']' ∨ c = rbrace) :
    delimited (c :: cs) := by
  intro d ds hd
  simp only [List.cons.injEq] at hd
  rw [← hd.1]
  exact h

theorem parseElems_serialized (xs : List Val) :
    ∀ (x : Val) (acc : List Val) (fuel : Nat) (r tx : List Char),
      parsesBack x → (∀ y ∈ xs, parsesBack y) → serialize x = some tx →
      2 * (tx.length + (serializeElems xs false).length) + 1 ≤ fuel →
      parseElems fuel (tx ++ (serializeElems xs false ++ ']' :: r)) acc =
        some (.arr (acc ++ x :: xs), r) := by
  induction xs with
  | nil =>
    intro x acc fuel r tx hx _ htx hfuel
    obtain ⟨t, ht, _, hparse⟩ := hx
    rw [htx, Option.some.injEq] at ht
    subst ht
    obtain ⟨f, rfl⟩ : ∃ f, fuel = f + 1 := ⟨fuel - 1, by omega⟩
    rw [parseElems]
    simp only [serializeElems, List.nil_append]
    rw [hparse f (']' :: r) (by simp [serializeElems] at hfuel; omega)
      (delimited_cons _ _ (Or.inr (Or.inl rfl)))]
    simp only [skipWs_cons ']' r rfl]
    have h1 : ¬ (']' : Char) = ',' := by decide
    simp only [h1, ↓reduceIte]
  | cons y ys ih =>
    intro x acc fuel r tx hx hys htx hfuel
    obtain ⟨t, ht, _, hparse⟩ := hx
    rw [htx, Option.some.injEq] at ht
    subst ht
    obtain ⟨ty, hty, hyhead, hyparse⟩ := hys y (List.mem_cons_self _ _)
    obtain ⟨f, rfl⟩ : ∃ f, fuel = f + 1 := ⟨fuel - 1, by omega⟩
    have hser : serializeElems (y :: ys) false = ',' :: (ty ++ serializeElems ys false) := by
      simp [serializeElems, separator, hty]
    rw [hser] at hfuel ⊢
    simp only [List.length_cons, List.length_append] at hfuel
    rw [parseElems]
    simp only [List.cons_append]
    rw [hparse f _ (by omega) (delimited_cons _ _ (Or.inl rfl))]
    simp only [skipWs_cons ',' _ rfl, ↓reduceIte]
    have hrec := ih y (acc ++ [x]) f r ty
      ⟨ty, hty, hyhead, hyparse⟩ (fun z hz => hys z (List.mem_cons_of_mem _ hz)) hty (by omega)
    simp only [List.append_assoc] at hrec ⊢
    rw [hrec]
    rfl

theorem setMember_append (acc : List (String × Bool × Val)) (name : String) (x : Val)
    (h : name ∉ acc.map fun m => m.1) : setMember acc name x = acc ++ [(name, true, x)] := by
  induction acc with
  | nil => rfl
  | cons m rest ih =>
    obtain ⟨n, e, y⟩ := m
    simp only [List.map_cons, List.mem_cons, not_or] at h
    rw [setMember, if_neg (fun hn => h.1 hn.symm), ih h.2]
    rfl

theorem parseMembers_serialized (ms : List (String × Bool × Val)) :
    ∀ (name : String) (x : Val) (acc : List (String × Bool × Val)) (fuel : Nat)
      (r tx : List Char),
      parsesBack x → (∀ m ∈ ms, m.2.1 = true ∧ parsesBack m.2.2) → serialize x = some tx →
      ((acc.map fun m => m.1) ++ name :: ms.map fun m => m.1).Nodup →
      2 * ((quoteJSONString name).length + 1 + tx.length +
        (serializeMembers ms false).length) + 1 ≤ fuel →
      parseMembers fuel
          (quoteJSONString name ++ (':' :: (tx ++ (serializeMembers ms false ++ rbrace :: r))))
          acc =
        some (.obj "Object" (acc ++ (name, true, x) :: ms), r) := by
  induction ms with
  | nil =>
    intro name x acc fuel r tx hx _ htx hnodup hfuel
    obtain ⟨t, ht, _, hparse⟩ := hx
    rw [htx, Option.some.injEq] at ht
    subst ht
    obtain ⟨f, rfl⟩ : ∃ f, fuel = f + 1 := ⟨fuel - 1, by omega⟩
    have hfresh : name ∉ acc.map fun m => m.1 := by
      intro hmem
      exact (List.nodup_append.mp hnodup).2.2 hmem (List.mem_cons_self _ _)
    rw [parseMembers]
    have hin : quoteJSONString name ++ (':' :: (tx ++ (serializeMembers [] false ++ rbrace :: r))) =
        dquote :: (escapeChars name.data ++ dquote :: (':' :: (tx ++ rbrace :: r))) := by
      simp [quoteJSONString, serializeMembers]
    rw [hin, skipWs_cons dquote _ rfl]
    simp only [↓reduceIte, parseStringBody_escapeChars, skipWs_cons ':' _ rfl]
    rw [hparse f (rbrace :: r) (by simp [serializeMembers] at hfuel; omega)
      (delimited_cons _ _ (Or.inr (Or.inr rfl)))]
    simp only [skipWs_cons rbrace r rfl]
    have h1 : ¬ rbrace = ',' := by decide
    simp only [h1, ↓reduceIte, setMember_append acc name x hfresh]
  | cons m2 ms2 ih =>
    intro name x acc fuel r tx hx hms htx hnodup hfuel
    obtain ⟨t, ht, _, hparse⟩ := hx
    rw [htx, Option.some.injEq] at ht
    subst ht
    obtain ⟨n2, e2, y⟩ := m2
    obtain ⟨he2, ty, hty, hyhead, hyparse⟩ := hms (n2, e2, y) (List.mem_cons_self _ _)
    simp only at he2
    subst he2
    obtain ⟨f, rfl⟩ : ∃ f, fuel = f + 1 := ⟨fuel - 1, by omega⟩
    have hfresh : name ∉ acc.map fun m => m.1 := by
      intro hmem
      exact (List.nodup_append.mp hnodup).2.2 hmem (List.mem_cons_self _ _)
    have hser : serializeMembers ((n2, true, y) :: ms2) false =
        ',' :: (quoteJSONString n2 ++ (':' :: (ty ++ serializeMembers ms2 false))) := by
      simp [serializeMembers, separator, hty]
    rw [hser] at hfuel ⊢
    simp only [List.length_cons, List.length_append] at hfuel
    rw [parseMembers]
    have hin : quoteJSONString name ++ (':' :: (tx ++
          ((',' :: (quoteJSONString n2 ++ (':' :: (ty ++ serializeMembers ms2 false)))) ++
            rbrace :: r))) =
        dquote :: (escapeChars name.data ++ dquote :: (':' :: (tx ++
          (',' :: (quoteJSONString n2 ++ (':' :: (ty ++
            (serializeMembers ms2 false ++ rbrace :: r)))))))) := by
      simp [quoteJSONString]
    rw [hin, skipWs_cons dquote _ rfl]
    simp only [↓reduceIte, parseStringBody_escapeChars, skipWs_cons ':' _ rfl]
    rw [hparse f _ (by omega) (delimited_cons _ _ (Or.inl rfl))]
    simp only [skipWs_cons ',' _ rfl, ↓reduceIte, setMember_append acc name x hfresh]
    have hrec := ih n2 y (acc ++ [(name, true, x)]) f r ty ⟨ty, hty, hyhead, hyparse⟩
      (fun z hz => hms z (List.mem_cons_of_mem _ hz)) hty
      (by simpa [List.append_assoc] using hnodup) (by omega)
    rw [hrec]
    simp

/-- Every value of the serialisation format is parsed back from its
serialisation. -/
theorem jsonValue_parsesBack (v : Val) (h : JsonValue v) : parsesBack v := by
  induction h with
  | null => exact parsesBack_null
  | bool b => exact parsesBack_bool b
  | num n _ => exact parsesBack_num n
  | str s => exact parsesBack_str s
  | arr elems _ ih =>
    cases elems with
    | nil =>
      refine ⟨_, rfl, ⟨'[', _, rfl, rfl, by decide⟩, ?_⟩
      intro fuel rest hfuel _
      obtain ⟨f, rfl⟩ : ∃ f, fuel = f + 1 := ⟨fuel - 1, by simp [serializeElems] at hfuel; omega⟩
      rw [parseValue]
      rfl
    | cons x xs =>
      obtain ⟨tx, htx, ⟨c, cs, hcs, hws, hc⟩, hparse⟩ := ih x (List.mem_cons_self _ _)
      have hser : serializeElems (x :: xs) true = tx ++ serializeElems xs false := by
        simp [serializeElems, separator, htx]
      refine ⟨'[' :: (serializeElems (x :: xs) true ++ [']']), by rw [serialize],
        ⟨'[', _, rfl, rfl, by decide⟩, ?_⟩
      intro fuel rest hfuel _
      rw [hser] at hfuel ⊢
      simp only [List.length_cons, List.length_append, List.length_singleton] at hfuel
      obtain ⟨f, rfl⟩ : ∃ f, fuel = f + 1 := ⟨fuel - 1, by omega⟩
      rw [parseValue]
      have hin : ('[' :: (tx ++ serializeElems xs false ++ [']'])) ++ rest =
          '[' :: (c :: (cs ++ (serializeElems xs false ++ ']' :: rest))) := by
        simp [hcs]
      rw [hin, skipWs_cons '[' _ rfl]
      have h1 : ('[' : Char) ≠ 'n' := by decide
      have h2 : ('[' : Char) ≠ 't' := by decide
      have h3 : ('[' : Char) ≠ 'f' := by decide
      have h4 : ('[' : Char) ≠ dquote := by decide
      simp only [h1, h2, h3, h4, ↓reduceIte, skipWs_cons c _ hws, hc]
      have hrec := parseElems_serialized xs x [] f rest tx ⟨tx, htx, ⟨c, cs, hcs, hws, hc⟩, hparse⟩
        (fun y hy => ih y (List.mem_cons_of_mem _ hy)) htx (by omega)
      rw [hcs] at hrec
      simpa using hrec
  | obj members henum hnodup _ ih =>
    cases members with
    | nil =>
      refine ⟨_, rfl, ⟨lbrace, _, rfl, rfl, by decide⟩, ?_⟩
      intro fuel rest hfuel _
      obtain ⟨f, rfl⟩ : ∃ f, fuel = f + 1 :=
        ⟨fuel - 1, by simp [serializeMembers] at hfuel; omega⟩
      rw [parseValue]
      rfl
    | cons m ms =>
      obtain ⟨name, e, x⟩ := m
      have he : e = true := henum (name, e, x) (List.mem_cons_self _ _)
      subst he
      obtain ⟨tx, htx, hxhead, hparse⟩ := ih (name, true, x) (List.mem_cons_self _ _)
      simp only at htx hparse
      have hser : serializeMembers ((name, true, x) :: ms) true =
          quoteJSONString name ++ (':' :: (tx ++ serializeMembers ms false)) := by
        simp [serializeMembers, separator, htx]
      refine ⟨lbrace :: (serializeMembers ((name, true, x) :: ms) true ++ [rbrace]),
        by rw [serialize], ⟨lbrace, _, rfl, rfl, by decide⟩, ?_⟩
      intro fuel rest hfuel _
      rw [hser] at hfuel ⊢
      simp only [List.length_cons, List.length_append, List.length_singleton] at hfuel
      obtain ⟨f, rfl⟩ : ∃ f, fuel = f + 1 := ⟨fuel - 1, by omega⟩
      rw [parseValue]
      have hin : (lbrace :: (quoteJSONString name ++ (':' :: (tx ++ serializeMembers ms false)) ++
            [rbrace])) ++ rest =
          lbrace :: (dquote :: (escapeChars name.data ++ dquote ::
            (':' :: (tx ++ (serializeMembers ms false ++ rbrace :: rest))))) := by
        simp [quoteJSONString]
      rw [hin, skipWs_cons lbrace _ rfl]
      have h1 : lbrace ≠ 'n' := by decide
      have h2 : lbrace ≠ 't' := by decide
      have h3 : lbrace ≠ 'f' := by decide
      have h4 : lbrace ≠ dquote := by decide
      have h5 : lbrace ≠ '[' := by decide
      have h6 : dquote ≠ rbrace := by decide
      simp only [h1, h2, h3, h4, h5, h6, ↓reduceIte, skipWs_cons dquote _ rfl]
      have hrec := parseMembers_serialized ms name x [] f rest tx ⟨tx, htx, hxhead, hparse⟩
        (fun z hz => ⟨henum z (List.mem_cons_of_mem _ hz), ih z (List.mem_cons_of_mem _ hz)⟩)
        htx (by simpa using hnodup) (by omega)
      have hin2 : quoteJSONString name ++
            (':' :: (tx ++ (serializeMembers ms false ++ rbrace :: rest))) =
          dquote :: (escapeChars name.data ++ dquote ::
            (':' :: (tx ++ (serializeMembers ms false ++ rbrace :: rest)))) := by
        simp [quoteJSONString]
      rw [hin2] at hrec
      simpa using hrec

/-- Every value of the serialisation format is JSON-representable:
`JSON.parse(JSON.stringify(v))` is `v`. -/
theorem jsonValue_representable (v : Val) (h : JsonValue v) : jsonRepresentable v := by
  obtain ⟨t, ht, _, hparse⟩ := jsonValue_parsesBack v h
  refine ⟨String.mk t, by simp [JSON.stringify, ht], ?_⟩
  have hp := hparse (2 * t.length + 2) [] (by omega) (by intro c cs hc; cases hc)
  rw [List.append_nil] at hp
  simp [JSON.parse, hp, skipWs]

/-! ## Call round trip -/

theorem onMessage_call (env : WorkerEnv) (requiredWorker : Val) (id : String)
    (functionPath : List String) (args : List Val) :
    _runWorkerHandler.onMessage env requiredWorker (Msg.call id functionPath args) =
      _runWorkerHandler.onCall env requiredWorker (Msg.call id functionPath args) := by
  simp [_runWorkerHandler.onMessage, Msg.call, REF]

theorem tryBlock_fn (env : WorkerEnv) (isAsync : Bool) (fid : Nat) (fnLast : Val) (msg : Msg) :
    tryBlock env (.fn isAsync fid) fnLast msg =
      ([.invoked fid fnLast msg.arguments], env.impl fid fnLast msg.arguments) := by
  cases isAsync <;> simp [tryBlock, instanceofFunction, instanceofAsyncFunction, applyFn]

theorem onMessage_callRet (h : Handle) (id : String) (functionPath : List String) (error : Val)
    (result : Option String) (hid : id ≠ "") :
    runWorker.onMessage h (Msg.callRet (some id) functionPath error result) =
      runWorker.onCallRet h (Msg.callRet (some id) functionPath error result) id := by
  simp [runWorker.onMessage, Msg.callRet, REF, truthyStr, hid]

/-- C1: when the target at the path is a sync or async function that returns `v`,
and `v` is JSON-representable (0, false, the empty string and null included) or
is `undefined`, the worker sends one call-ret envelope whose result field is
absent exactly when `v` is `undefined`, and the coordinator's handling of that
envelope resolves the pending promise of the call with exactly `v`. -/
theorem call_return_resolves_with_value (env : WorkerEnv) (requiredWorker : Val) (h : Handle)
    (id : String) (functionPath : List String) (args : List Val) (isAsync : Bool) (fid : Nat)
    (fnLast v : Val) (promise : Nat)
    (hid : id ≠ "")
    (hwalk : walkPath env.stackOf requiredWorker requiredWorker functionPath =
      .ok (.fn isAsync fid, fnLast))
    (himpl : env.impl fid fnLast args = .returns v)
    (hpending : lookupResolver h.returnResolvers id = some promise)
    (hv : v = .undefined ∨ jsonRepresentable v) :
    _runWorkerHandler.onMessage env requiredWorker (Msg.call id functionPath args) =
        [.invoked fid fnLast args, .sent (replyTo (Msg.call id functionPath args) .null v)] ∧
      ((replyTo (Msg.call id functionPath args) .null v).result = none ↔ v = .undefined) ∧
      runWorker.onMessage h (replyTo (Msg.call id functionPath args) .null v) =
        { handle := { h with returnResolvers := deleteResolver h.returnResolvers id },
          effects := [.resolved promise v], raised := none } := by
  refine ⟨?_, ?_, ?_⟩
  · rw [onMessage_call, _runWorkerHandler.onCall]
    simp only [Msg.call] at hwalk ⊢
    rw [hwalk]
    simp only [tryBlock_fn, himpl, finishCall, List.singleton_append]
  · rcases hv with hv | ⟨text, hs, _⟩
    · subst hv
      simp [replyTo, Msg.callRet, resultField]
    · have hne : v ≠ .undefined := by
        rintro rfl
        simp [JSON.stringify, serialize] at hs
      have hr : resultField v = some text := by
        cases v <;> first | exact absurd rfl hne | simpa [resultField] using hs
      simp [replyTo, Msg.callRet, hr, hne]
  · have hreply : replyTo (Msg.call id functionPath args) .null v =
        Msg.callRet (some id) functionPath .null (resultField v) := rfl
    rw [hreply, onMessage_callRet h id functionPath .null _ hid, runWorker.onCallRet, hpending]
    rcases hv with hv | ⟨text, hs, hp⟩
    · subst hv
      simp [Msg.callRet, truthy, resultField, parsedResult]
    · have hne : v ≠ .undefined := by
        rintro rfl
        simp [JSON.stringify, serialize] at hs
      have hr : resultField v = some text := by
        cases v <;> first | exact absurd rfl hne | simpa [resultField] using hs
      have hte : text ≠ "" := stringify_ne_empty v text hs
      simp [Msg.callRet, truthy, hr, parsedResult, truthyStr, hte, hp]

theorem call_return_resolves_with_value_witness :
    (jsonRepresentable (.num 0) ∧ jsonRepresentable (.bool false) ∧
        jsonRepresentable (.str "") ∧ jsonRepresentable .null) ∧
      runWorker.onMessage demoHandle
          (replyTo (Msg.call "AAAAAAAAAAAAAAAA" ["zero"] []) .null (.num 0)) =
        { handle := { demoHandle with returnResolvers := [] },
          effects := [.resolved 7 (.num 0)], raised := none } ∧
      runWorker.onMessage demoHandle
          (replyTo (Msg.call "AAAAAAAAAAAAAAAA" ["no"] []) .null (.bool false)) =
        { handle := { demoHandle with returnResolvers := [] },
          effects := [.resolved 7 (.bool false)], raised := none } ∧
      runWorker.onMessage demoHandle
          (replyTo (Msg.call "AAAAAAAAAAAAAAAA" ["empty"] []) .null (.str "")) =
        { handle := { demoHandle with returnResolvers := [] },
          effects := [.resolved 7 (.str "")], raised := none } ∧
      runWorker.onMessage demoHandle
          (replyTo (Msg.call "AAAAAAAAAAAAAAAA" ["nothing"] []) .null .null) =
        { handle := { demoHandle with returnResolvers := [] },
          effects := [.resolved 7 .null], raised := none } ∧
      runWorker.onMessage demoHandle
          (replyTo (Msg.call "AAAAAAAAAAAAAAAA" ["nil"] []) .null .undefined) =
        { handle := { demoHandle with returnResolvers := [] },
          effects := [.resolved 7 .undefined], raised := none } :=
  ⟨⟨⟨"0", rfl, rfl⟩, ⟨"false", rfl, rfl⟩, ⟨"\"\"", rfl, rfl⟩, ⟨"null", rfl, rfl⟩⟩,
    (call_return_resolves_with_value demoEnv demoWorker demoHandle "AAAAAAAAAAAAAAAA" ["zero"] []
      false 0 demoWorker (.num 0) 7 (by decide) rfl rfl rfl (Or.inr ⟨"0", rfl, rfl⟩)).2.2,
    (call_return_resolves_with_value demoEnv demoWorker demoHandle "AAAAAAAAAAAAAAAA" ["no"] []
      false 3 demoWorker (.bool false) 7 (by decide) rfl rfl rfl
      (Or.inr ⟨"false", rfl, rfl⟩)).2.2,
    (call_return_resolves_with_value demoEnv demoWorker demoHandle "AAAAAAAAAAAAAAAA" ["empty"] []
      true 4 demoWorker (.str "") 7 (by decide) rfl rfl rfl (Or.inr ⟨"\"\"", rfl, rfl⟩)).2.2,
    (call_return_resolves_with_value demoEnv demoWorker demoHandle "AAAAAAAAAAAAAAAA" ["nothing"]
      [] false 5 demoWorker .null 7 (by decide) rfl rfl rfl (Or.inr ⟨"null", rfl, rfl⟩)).2.2,
    (call_return_resolves_with_value demoEnv demoWorker demoHandle "AAAAAAAAAAAAAAAA" ["nil"] []
      false 6 demoWorker .undefined 7 (by decide) rfl rfl rfl (Or.inl rfl)).2.2⟩

/-! ## Receiver of a dispatched call -/

theorem walkPath_append (stackOf : String → String) (fn fnLast : Val) (p : List String)
    (k : String) :
    walkPath stackOf fn fnLast (p ++ [k]) =
      match walkPath stackOf fn fnLast p with
      | .error e => .error e
      | .ok r =>
        match getProp stackOf r.1 k with
        | .error e => .error e
        | .ok next => .ok (next, r.1) := by
  induction p generalizing fn fnLast with
  | nil =>
    simp only [List.nil_append, walkPath]
  | cons a rest ih =>
    simp only [List.cons_append, walkPath]
    cases getProp stackOf fn a with
    | error e => rfl
    | ok next => exact ih next fn

theorem walkPath_receiver (stackOf : String → String) (requiredWorker : Val)
    (functionPath : List String) (fn fnLast : Val) (hne : functionPath ≠ [])
    (hwalk : walkPath stackOf requiredWorker requiredWorker functionPath = .ok (fn, fnLast)) :
    valueAt stackOf requiredWorker functionPath.dropLast = .ok fnLast := by
  obtain ⟨p, k, rfl⟩ : ∃ p k, functionPath = p ++ [k] :=
    ⟨functionPath.dropLast, functionPath.getLast hne, (List.dropLast_append_getLast hne).symm⟩
  rw [List.dropLast_concat]
  rw [walkPath_append] at hwalk
  unfold valueAt
  cases hp : walkPath stackOf requiredWorker requiredWorker p with
  | error e => simp [hp] at hwalk
  | ok r =>
    simp only [hp] at hwalk
    cases hg : getProp stackOf r.1 k with
    | error e => simp [hg] at hwalk
    | ok next =>
      simp only [hg, Except.ok.injEq, Prod.mk.injEq] at hwalk
      simp [hwalk.2]

/-- C4: when the non-empty `functionPath` of a Call envelope resolves to a
function of the loaded module, the dispatcher applies that function to the
value found at the path without its last key (the loaded module itself for a
path of one key) as receiver and to the envelope's arguments in their order, and
answers with what that application gives. -/
theorem dispatch_applies_with_owner_receiver (env : WorkerEnv) (requiredWorker : Val) (msg : Msg)
    (isAsync : Bool) (fid : Nat)
    (href : msg.ref = REF) (hcmd : msg.cmd = "call") (hne : msg.functionPath ≠ [])
    (hres : valueAt env.stackOf requiredWorker msg.functionPath = .ok (.fn isAsync fid)) :
    ∃ receiver,
      valueAt env.stackOf requiredWorker msg.functionPath.dropLast = .ok receiver ∧
      (msg.functionPath.length = 1 → receiver = requiredWorker) ∧
      _runWorkerHandler.onMessage env requiredWorker msg =
        finishCall env msg
          ([.invoked fid receiver msg.arguments], env.impl fid receiver msg.arguments) := by
  unfold valueAt at hres
  cases hw : walkPath env.stackOf requiredWorker requiredWorker msg.functionPath with
  | error e => simp [hw] at hres
  | ok r =>
    obtain ⟨fn, fnLast⟩ := r
    simp only [hw, Except.ok.injEq] at hres
    subst hres
    have hrecv := walkPath_receiver env.stackOf requiredWorker msg.functionPath _ fnLast hne hw
    refine ⟨fnLast, hrecv, ?_, ?_⟩
    · intro hlen
      obtain ⟨k, hk⟩ := List.length_eq_one.mp hlen
      rw [hk] at hrecv
      simpa [valueAt, walkPath] using hrecv.symm
    · simp only [_runWorkerHandler.onMessage, href, hcmd, _runWorkerHandler.onCall, hw,
        tryBlock_fn]
      simp

theorem dispatch_applies_with_owner_receiver_witness :
    valueAt demoEnv.stackOf demoWorker ["getY"] = .ok (.fn false 1) ∧
      _runWorkerHandler.onMessage demoEnv demoWorker (Msg.call "AAAAAAAAAAAAAAAA" ["getY"] []) =
        [.invoked 1 demoWorker [],
          .sent (Msg.callRet (some "AAAAAAAAAAAAAAAA") ["getY"] .null (some "\"abc\""))] :=
  ⟨rfl,
    match dispatch_applies_with_owner_receiver demoEnv demoWorker
      (Msg.call "AAAAAAAAAAAAAAAA" ["getY"] []) false 1 rfl rfl (by decide) rfl with
    | ⟨_, hrecv, _, hrun⟩ => by
      cases hrecv
      exact hrun⟩

/-! ## Thrown values and unresolvable paths -/

/-- A thrown value that has an object form is logged, marshaled and sent back
in one call-ret envelope with the id of the call and without a result. -/
theorem thrown_value_is_marshaled (env : WorkerEnv) (requiredWorker : Val) (msg : Msg)
    (isAsync : Bool) (fid : Nat) (fnLast err : Val) (members : List (String × Bool × Val))
    (href : msg.ref = REF) (hcmd : msg.cmd = "call")
    (hwalk : walkPath env.stackOf requiredWorker requiredWorker msg.functionPath =
      .ok (.fn isAsync fid, fnLast))
    (himpl : env.impl fid fnLast msg.arguments = .throws err)
    (hown : ownProperties err = some members) :
    convertErrorToPlainObj env.stackOf err =
        .ok (.obj "Object" (members.map fun m => (m.1, true, m.2.2))) ∧
      _runWorkerHandler.onMessage env requiredWorker msg =
        [.invoked fid fnLast msg.arguments, .logged err,
          .sent (Msg.callRet msg.id msg.functionPath
            (.obj "Object" (members.map fun m => (m.1, true, m.2.2))) none)] := by
  have hconv : convertErrorToPlainObj env.stackOf err =
      .ok (.obj "Object" (members.map fun m => (m.1, true, m.2.2))) := by
    simp [convertErrorToPlainObj, hown]
  refine ⟨hconv, ?_⟩
  simp only [_runWorkerHandler.onMessage, href, hcmd, _runWorkerHandler.onCall, hwalk,
    tryBlock_fn, himpl, finishCall, hconv]
  simp [replyTo, resultField]

/-- C5, at the failing input: the exported async function `boom` throws
`undefined` (as `await Promise.reject()` does).  The marshaler itself throws a
TypeError inside the `catch` block, the handler ends by throwing and no call-ret
envelope is sent. -/
theorem thrown_undefined_is_not_answered :
    _runWorkerHandler.onMessage demoEnv demoWorker (Msg.call "AAAAAAAAAAAAAAAA" ["boom"] []) =
      [.invoked 2 demoWorker [], .logged .undefined,
        .raised (mkError demoEnv.stackOf "TypeError"
          "Cannot convert undefined or null to object")] := by
  rfl

/-- A path that is walked to its end and does not end at a function is answered
with one call-ret envelope that carries the id of the call, a marshaled error
and no result. -/
theorem non_callable_target_is_answered (env : WorkerEnv) (requiredWorker : Val) (msg : Msg)
    (fn fnLast : Val)
    (href : msg.ref = REF) (hcmd : msg.cmd = "call")
    (hwalk : walkPath env.stackOf requiredWorker requiredWorker msg.functionPath =
      .ok (fn, fnLast))
    (hnf : instanceofFunction fn = false) :
    ∃ cls message,
      _runWorkerHandler.onMessage env requiredWorker msg =
        [.logged (mkError env.stackOf cls message),
          .sent (Msg.callRet msg.id msg.functionPath
            (.obj "Object" [("stack", true, .str (env.stackOf message)),
              ("message", true, .str message)]) none)] := by
  have hna : instanceofAsyncFunction fn = false := by
    cases fn <;> simp_all [instanceofFunction, instanceofAsyncFunction]
  simp only [_runWorkerHandler.onMessage, href, hcmd, _runWorkerHandler.onCall, hwalk]
  by_cases hp : instanceofPromise fn = true
  · refine ⟨"TypeError", "fn.apply is not a function", ?_⟩
    cases fn <;> simp_all [instanceofPromise]
    simp [tryBlock, instanceofFunction, instanceofAsyncFunction, instanceofPromise, applyFn,
      finishCall, convertErrorToPlainObj, mkError, ownProperties, replyTo, resultField]
  · refine ⟨"Error", "worker " ++ env.workerJsFile ++ " has no function '" ++
      ".".intercalate msg.functionPath ++ "'", ?_⟩
    simp [tryBlock, hnf, hna, hp, finishCall, convertErrorToPlainObj, mkError, ownProperties,
      replyTo, resultField]

/-- C6, at the failing input: the path `['missing', 'x']` has a missing
intermediate key.  The property read on `undefined` throws in the path walk,
which is outside the `try` block: the handler ends by throwing and no call-ret
envelope is sent. -/
theorem missing_intermediate_key_is_not_answered :
    _runWorkerHandler.onMessage demoEnv demoWorker
        (Msg.call "AAAAAAAAAAAAAAAA" ["missing", "x"] []) =
      [.raised (mkError demoEnv.stackOf "TypeError"
        "Cannot read properties of undefined (reading 'x')")] := by
  rfl

/-! ## Stubs on the mirror -/

theorem readProp_setProp (props : List (String × Mirror)) (k : String) (m : Mirror)
    (k2 : String) :
    readProp (setProp props k m) k2 = if k = k2 then some m else readProp props k2 := by
  induction props with
  | nil => simp [setProp, readProp]
  | cons entry rest ih =>
    obtain ⟨k1, v1⟩ := entry
    by_cases h1 : k1 = k
    · subst h1
      by_cases h2 : k1 = k2 <;> simp [setProp, readProp, h2]
    · by_cases h2 : k1 = k2
      · subst h2
        have h3 : ¬ k = k1 := fun h => h1 h.symm
        simp [setProp, readProp, h1, h3]
      · simp [setProp, readProp, h1, h2, ih]

theorem mapper_keyed (t k : String) (c : Option (List ExportNode))
    (parent : List (String × Mirror)) (pp : List String) (hk : k ≠ "") :
    (mapper (.mk t (some k) c) parent pp).1 =
      match placed (.mk t (some k) c) pp with
      | some m => setProp parent k m
      | none => parent := by
  unfold mapper placed
  by_cases h1 : t = "Array"
  · simp [h1, truthyStr, hk]
  · by_cases h2 : t = "Object"
    · simp [h2, truthyStr, hk]
    · by_cases h3 : t = "Function" ∨ t = "AsyncFunction" ∨ t = "Promise"
      · simp [h1, h2, h3, truthyStr, hk]
      · simp [h1, h2, h3]

theorem mapperAll_ok (els : List ExportNode)
    (hok : ∀ el ∈ els, ∀ parent pp, (mapper el parent pp).2 = none) :
    ∀ parent pp, (mapperAll els parent pp).2 = none := by
  induction els with
  | nil => intro parent pp; simp [mapperAll]
  | cons el rest ih =>
    intro parent pp
    have h1 := hok el (List.mem_cons_self _ _) parent pp
    rw [mapperAll]
    cases hm : mapper el parent pp with
    | mk updated err =>
      rw [hm] at h1
      simp only at h1
      subst h1
      exact ih (fun e he => hok e (List.mem_cons_of_mem _ he)) updated pp

theorem mapper_ok (n : ExportNode) (hwf : TreeWF n) :
    ∀ parent pp, (mapper n parent pp).2 = none := by
  induction hwf with
  | leaf t k h1 h2 =>
    intro parent pp
    unfold mapper
    simp only [h1, h2, ↓reduceIte]
    split <;> (try split) <;> rfl
  | node t k els ht _ _ _ ih =>
    intro parent pp
    have hall := mapperAll_ok els ih
    unfold mapper
    rcases ht with rfl | rfl
    · simp only [↓reduceIte, mapperChildren]
      split <;> simp [hall]
    · simp only [String.reduceEq, ↓reduceIte, mapperChildren]
      split <;> simp [hall]

theorem findChild_eq_none (els : List ExportNode) (k : String)
    (h : some k ∉ els.map ExportNode.key) : findChild els k = none := by
  induction els with
  | nil => rfl
  | cons e r ih =>
    simp only [List.map_cons, List.mem_cons, not_or] at h
    rw [findChild, if_neg (fun hk => h.1 hk.symm)]
    exact ih h.2

theorem readProp_mapperAll (els : List ExportNode)
    (hkeys : ∀ el ∈ els, ∃ key, el.key = some key ∧ key ≠ "")
    (hnodup : (els.map ExportNode.key).Nodup)
    (hok : ∀ el ∈ els, ∀ parent pp, (mapper el parent pp).2 = none)
    (pp : List String) (k : String) :
    ∀ parent, readProp (mapperAll els parent pp).1 k =
      match findChild els k with
      | some c =>
        match placed c pp with
        | some m => some m
        | none => readProp parent k
      | none => readProp parent k := by
  induction els with
  | nil => intro parent; simp [mapperAll, findChild]
  | cons el rest ih =>
    intro parent
    have hrest := ih (fun e he => hkeys e (List.mem_cons_of_mem _ he))
      (List.nodup_cons.mp hnodup).2 (fun e he => hok e (List.mem_cons_of_mem _ he))
    obtain ⟨key, hkey, hne⟩ := hkeys el (List.mem_cons_self _ _)
    have h1 := hok el (List.mem_cons_self _ _) parent pp
    obtain ⟨t, k0, c⟩ := el
    simp only [ExportNode.key] at hkey
    subst hkey
    have hstep := mapper_keyed t key c parent pp hne
    rw [mapperAll]
    cases hm : mapper (.mk t (some key) c) parent pp with
    | mk updated err =>
      rw [hm] at h1 hstep
      simp only at h1 hstep
      subst h1
      simp only
      rw [hrest updated, findChild]
      by_cases hk : key = k
      · subst hk
        have hnone : findChild rest key = none :=
          findChild_eq_none rest key (List.nodup_cons.mp hnodup).1
        simp only [ExportNode.key, ↓reduceIte, hnone, hstep]
        cases placed (.mk t (some key) c) pp with
        | none => rfl
        | some m => simp [readProp_setProp]
      · have hk2 : ¬ (some key = some k) := fun h => hk (Option.some.inj h)
        simp only [ExportNode.key, hk2, ↓reduceIte, hstep]
        cases placed (.mk t (some key) c) pp with
        | none => rfl
        | some m => simp [readProp_setProp, hk]

theorem findChild_some (els : List ExportNode) (k : String) (c : ExportNode)
    (h : findChild els k = some c) : c ∈ els ∧ c.key = some k := by
  induction els with
  | nil => simp [findChild] at h
  | cons e r ih =>
    rw [findChild] at h
    split at h
    · rename_i hk
      simp only [Option.some.injEq] at h
      subst h
      exact ⟨List.mem_cons_self _ _, hk⟩
    · exact ⟨List.mem_cons_of_mem _ (ih h).1, (ih h).2⟩

theorem isStubType_not_container (t : String) (h : isStubType t) :
    t ≠ "Array" ∧ t ≠ "Object" := by
  rcases h with rfl | rfl | rfl <;> decide

theorem mirrorAt_mapperAll (rest : List String) :
    ∀ (els : List ExportNode) (k : String) (c leaf : ExportNode) (pp : List String)
      (parent : List (String × Mirror)),
      (∀ el ∈ els, ∃ key, el.key = some key ∧ key ≠ "") →
      (els.map ExportNode.key).Nodup →
      (∀ el ∈ els, TreeWF el) →
      findChild els k = some c → nodeAt c rest = some leaf → isStubType leaf.type →
      mirrorAt (mapperAll els parent pp).1 (k :: rest) = some (.stub (pp ++ k :: rest)) := by
  induction rest with
  | nil =>
    intro els k c leaf pp parent hkeys hnodup hwf hfind hat hstub
    obtain ⟨hmem, hkey⟩ := findChild_some els k c hfind
    obtain ⟨key, hkey2, hne⟩ := hkeys c hmem
    have hread := readProp_mapperAll els hkeys hnodup (fun el he => mapper_ok el (hwf el he))
      pp k parent
    simp only [nodeAt, Option.some.injEq] at hat
    subst hat
    obtain ⟨t, k0, ch⟩ := c
    simp only [ExportNode.key] at hkey hkey2
    subst hkey
    simp only [Option.some.injEq] at hkey2
    subst hkey2
    simp only [ExportNode.type] at hstub
    obtain ⟨h1, h2⟩ := isStubType_not_container t hstub
    have hstub2 : t = "Function" ∨ t = "AsyncFunction" ∨ t = "Promise" := hstub
    have hplaced : placed (.mk t (some k) ch) pp = some (.stub (pp ++ [k])) := by
      simp [placed, h1, h2, hstub2, extendPath, truthyStr, hne]
    rw [hfind] at hread
    simp only [hplaced] at hread
    simp [mirrorAt, hread]
  | cons k2 rest2 ih =>
    intro els k c leaf pp parent hkeys hnodup hwf hfind hat hstub
    obtain ⟨hmem, hkey⟩ := findChild_some els k c hfind
    obtain ⟨key, hkey2, hne⟩ := hkeys c hmem
    have hread := readProp_mapperAll els hkeys hnodup (fun el he => mapper_ok el (hwf el he))
      pp k parent
    have hc := hwf c hmem
    rw [hkey] at hkey2
    simp only [Option.some.injEq] at hkey2
    subst hkey2
    cases hc with
    | leaf t k0 h1 h2 => simp [nodeAt, ExportNode.children] at hat
    | node t k0 els2 ht hkeys2 hnodup2 hwf2 =>
      simp only [ExportNode.key] at hkey
      subst hkey
      simp only [nodeAt, ExportNode.children] at hat
      cases hf2 : findChild els2 k2 with
      | none => simp [hf2] at hat
      | some c2 =>
        simp only [hf2] at hat
        have hinner := ih els2 k2 c2 leaf (pp ++ [k]) [] hkeys2 hnodup2 hwf2 hf2 hat hstub
        rw [hfind] at hread
        rcases ht with rfl | rfl
        · have hplaced : placed (.mk "Array" (some k) (some els2)) pp =
              some (.arr (mapperAll els2 [] (pp ++ [k])).1) := by
            simp [placed, mapperChildren, extendPath, truthyStr, hne]
          simp only [hplaced] at hread
          simp only [mirrorAt, hread]
          simpa using hinner
        · have hplaced : placed (.mk "Object" (some k) (some els2)) pp =
              some (.obj (mapperAll els2 [] (pp ++ [k])).1) := by
            simp [placed, mapperChildren, extendPath, truthyStr, hne]
          simp only [hplaced] at hread
          simp only [mirrorAt, hread]
          simpa using hinner

theorem buildMap_key (v : Val) (k : Option String) : (buildMap v k).key = k := by
  cases v with
  | fn isAsync id => cases isAsync <;> rfl
  | _ => rfl

theorem buildMapElems_mem (elems : List Val) (i : Nat) (el : ExportNode)
    (h : el ∈ buildMapElems elems i) : ∃ x ∈ elems, ∃ j, el = buildMap x (some (indexKey j)) := by
  induction elems generalizing i with
  | nil => simp [buildMapElems] at h
  | cons x rest ih =>
    rw [buildMapElems] at h
    rcases List.mem_cons.mp h with h | h
    · exact ⟨x, List.mem_cons_self _ _, i, h⟩
    · obtain ⟨y, hy, j, hj⟩ := ih (i + 1) h
      exact ⟨y, List.mem_cons_of_mem _ hy, j, hj⟩

theorem buildMapElems_keys (elems : List Val) (i : Nat) :
    (buildMapElems elems i).map ExportNode.key =
      (List.range' i elems.length).map fun j => some (indexKey j) := by
  induction elems generalizing i with
  | nil => simp [buildMapElems]
  | cons x rest ih =>
    rw [buildMapElems]
    simp [List.range'_succ, buildMap_key, ih (i + 1)]

theorem buildMap_treeWF (v : Val) (hwf : ValWF v) : ∀ k, TreeWF (buildMap v k) := by
  induction hwf with
  | fn isAsync id =>
    intro k
    cases isAsync <;> exact TreeWF.leaf _ _ (by decide) (by decide)
  | arr elems _ ih =>
    intro k
    rw [buildMap]
    refine TreeWF.node "Array" k _ (Or.inl rfl) ?_ ?_ ?_
    · intro el hel
      obtain ⟨x, _, j, rfl⟩ := buildMapElems_mem elems 0 el hel
      exact ⟨indexKey j, buildMap_key _ _, indexKey_ne_empty j⟩
    · rw [buildMapElems_keys]
      refine List.Nodup.map ?_ (List.nodup_range' _ _)
      intro a b hab
      exact indexKey_injective a b (Option.some.inj hab)
    · intro el hel
      obtain ⟨x, hx, j, rfl⟩ := buildMapElems_mem elems 0 el hel
      exact ih x hx _
  | obj cls members hnames hnodup _ ih =>
    intro k
    rw [buildMap, buildMapMembers_eq_map]
    refine TreeWF.node "Object" k _ (Or.inr rfl) ?_ ?_ ?_
    · intro el hel
      obtain ⟨m, hm, rfl⟩ := List.mem_map.mp hel
      obtain ⟨hmem, henum⟩ := List.mem_filter.mp hm
      exact ⟨m.1, buildMap_key _ _, hnames m hmem henum⟩
    · rw [List.map_map]
      have hfun : (ExportNode.key ∘ fun m : String × Bool × Val => buildMap m.2.2 (some m.1)) =
          (fun s => some s) ∘ (fun m : String × Bool × Val => m.1) := by
        funext m
        simp [buildMap_key]
      rw [hfun, ← List.map_map]
      exact List.Nodup.map (fun a b hab => Option.some.inj hab) hnodup
    · intro el hel
      obtain ⟨m, hm, rfl⟩ := List.mem_map.mp hel
      exact ih m (List.mem_filter.mp hm).1 _
  | _ => intro k; exact TreeWF.leaf _ _ (by simp [typeof]) (by simp [typeof])

/-- Stub placement where the key test keeps every key: for a loaded module
whose enumerable member names are non-empty (and distinct within each object),
every Function, AsyncFunction or Promise leaf below the root of its export tree
gets, at the location its key path addresses on the handle, a stub that carries
exactly that key path, positional keys included. -/
theorem stub_at_leaf_path (v : Val) (hwf : ValWF v) (parent : List (String × Mirror))
    (path : List String) (leaf : ExportNode) (hne : path ≠ [])
    (hat : nodeAt (buildMap v none) path = some leaf) (hstub : isStubType leaf.type) :
    (mapper (buildMap v none) parent []).2 = none ∧
      mirrorAt (mapper (buildMap v none) parent []).1 path = some (.stub path) := by
  have htree := buildMap_treeWF v hwf none
  refine ⟨mapper_ok _ htree parent [], ?_⟩
  obtain ⟨k, rest, rfl⟩ : ∃ k rest, path = k :: rest := by
    cases path with
    | nil => exact absurd rfl hne
    | cons k rest => exact ⟨k, rest, rfl⟩
  cases hb : buildMap v none with
  | mk t k0 ch =>
    rw [hb] at htree hat
    cases htree with
    | leaf _ _ h1 h2 => simp [nodeAt, ExportNode.children] at hat
    | node _ _ els ht hkeys hnodup hwfs =>
      have hk0 : k0 = none := by
        have := buildMap_key v none
        rw [hb] at this
        exact this
      subst hk0
      simp only [nodeAt, ExportNode.children] at hat
      cases hf : findChild els k with
      | none => simp [hf] at hat
      | some c =>
        simp only [hf] at hat
        have hp := mirrorAt_mapperAll rest els k c leaf [] parent hkeys hnodup hwfs hf hat hstub
        rcases ht with rfl | rfl
        · have : mapper (.mk "Array" none (some els)) parent [] = mapperAll els parent [] := by
            simp [mapper, mapperChildren, truthyStr, extendPath]
          rw [this]
          simpa using hp
        · have : mapper (.mk "Object" none (some els)) parent [] = mapperAll els parent [] := by
            simp [mapper, mapperChildren, truthyStr, extendPath]
          rw [this]
          simpa using hp

theorem stub_at_leaf_path_witness :
    mirrorAt (mapper (buildMap (.obj "Object" [("list", true, .arr [.fn false 0, .fn false 1])])
        none) [] []).1 ["list", "0"] = some (.stub ["list", "0"]) :=
  (stub_at_leaf_path (.obj "Object" [("list", true, .arr [.fn false 0, .fn false 1])])
    (ValWF.obj _ _ (by simp) (by simp)
      (by
        intro m hm
        simp only [List.mem_singleton] at hm
        subst hm
        exact ValWF.arr _ (by
          intro x hx
          simp only [List.mem_cons, List.mem_singleton, List.not_mem_nil, or_false] at hx
          rcases hx with rfl | rfl <;> exact ValWF.fn _ _)))
    [] ["list", "0"] (.mk "Function" (some "0") none) (by simp) rfl
    (Or.inl rfl)).2

/-- C2, at the failing inputs.  When the loaded module is itself a function
(`module.exports = function ...`), its export tree is one Function leaf without
a key; the mapper builds the stub and assigns it to its own parameter only, so
the handle is announced ready with nothing on it and the location of the empty
path holds the handle, not a stub.  The same test on the key drops an empty
member name: for `{"": {f: function}}` the stub of the leaf at `['', 'f']` is
placed at `['f']` and carries the path `['f']`. -/
theorem root_callable_gets_no_stub :
    buildMap (.fn false 0) none = .mk "Function" none none ∧
      runWorker.onMessage (Handle.fresh "worker.js") (_runWorkerHandler.announce (.fn false 0)) =
        { handle := Handle.fresh "worker.js", effects := [.ready], raised := none } ∧
      mirrorAt (Handle.fresh "worker.js").mirror [] = some (.obj []) ∧
      (runWorker.onMessage (Handle.fresh "worker.js")
        (_runWorkerHandler.announce
          (.obj "Object" [("", true, .obj "Object" [("f", true, .fn false 0)])]))).handle.mirror =
        [("f", .stub ["f"])] := by
  refine ⟨rfl, rfl, rfl, rfl⟩

/-! ## Settling pending calls -/

theorem deleteResolver_eq_filter (table : List (String × Nat)) (id : String)
    (hnodup : (table.map Prod.fst).Nodup) :
    deleteResolver table id = table.filter (fun e => decide (e.1 ≠ id)) := by
  induction table with
  | nil => rfl
  | cons entry rest ih =>
    obtain ⟨k, p⟩ := entry
    simp only [List.map_cons, List.nodup_cons] at hnodup
    by_cases hk : k = id
    · subst hk
      have hrest : rest.filter (fun e => decide (e.1 ≠ k)) = rest := by
        rw [List.filter_eq_self]
        intro e he
        have : e.1 ≠ k := fun heq => hnodup.1 (heq ▸ List.mem_map_of_mem Prod.fst he)
        simpa using this
      rw [deleteResolver, List.filter_cons]
      simp only [↓reduceIte, ne_eq, not_true_eq_false, decide_False, Bool.false_eq_true]
      exact hrest.symm
    · rw [deleteResolver, List.filter_cons, ih hnodup.2]
      simp only [hk, ↓reduceIte, ne_eq, not_false_eq_true, decide_True]

theorem lookupResolver_filter (table : List (String × Nat)) (keep : String → Bool)
    (id : String) :
    lookupResolver (table.filter (fun e => keep e.1)) id =
      if keep id = true then lookupResolver table id else none := by
  induction table with
  | nil => simp [lookupResolver]
  | cons entry rest ih =>
    obtain ⟨k, p⟩ := entry
    by_cases hk : k = id
    · subst hk
      by_cases hkeep : keep k = true
      · simp [List.filter_cons, hkeep, lookupResolver]
      · simp only [List.filter_cons, hkeep, Bool.false_eq_true, ↓reduceIte] at ih ⊢
        exact ih
    · by_cases hkeep : keep k = true
      · simp only [List.filter_cons, hkeep, ↓reduceIte, lookupResolver, hk]
        exact ih
      · simp only [List.filter_cons, hkeep, Bool.false_eq_true, ↓reduceIte, lookupResolver, hk]
        exact ih

theorem lookupResolver_mem (table : List (String × Nat)) (id : String) (promise : Nat)
    (h : lookupResolver table id = some promise) : (id, promise) ∈ table := by
  induction table with
  | nil => simp [lookupResolver] at h
  | cons entry rest ih =>
    obtain ⟨k, p⟩ := entry
    by_cases hk : k = id
    · simp only [lookupResolver, hk, ↓reduceIte, Option.some.injEq] at h
      simp [hk, h]
    · simp only [lookupResolver, hk, ↓reduceIte] at h
      exact List.mem_cons_of_mem _ (ih h)

theorem base64_ne_nil (bytes : List Nat) (h : bytes ≠ []) : base64 bytes ≠ [] := by
  cases bytes with
  | nil => exact absurd rfl h
  | cons a t =>
    cases t with
    | nil => simp [base64]
    | cons b t2 => cases t2 <;> simp [base64]

theorem setResolver_mem (table : List (String × Nat)) (id : String) (promise : Nat)
    (e : String × Nat) (h : e ∈ setResolver table id promise) :
    e ∈ table ∨ e = (id, promise) := by
  induction table with
  | nil => simpa [setResolver] using h
  | cons entry rest ih =>
    obtain ⟨k, p⟩ := entry
    rw [setResolver] at h
    split at h
    · rename_i hk
      rcases List.mem_cons.mp h with h | h
      · exact Or.inr (by rw [h, hk])
      · exact Or.inl (List.mem_cons_of_mem _ h)
    · rcases List.mem_cons.mp h with h | h
      · exact Or.inl (h ▸ List.mem_cons_self _ _)
      · rcases ih h with h | h
        · exact Or.inl (List.mem_cons_of_mem _ h)
        · exact Or.inr h

theorem setResolver_keys (table : List (String × Nat)) (id : String) (promise : Nat) :
    (setResolver table id promise).map Prod.fst =
      if id ∈ table.map Prod.fst then table.map Prod.fst else table.map Prod.fst ++ [id] := by
  induction table with
  | nil => simp [setResolver]
  | cons entry rest ih =>
    obtain ⟨k, p⟩ := entry
    rw [setResolver]
    by_cases hk : k = id
    · simp [hk]
    · have hk2 : ¬ id = k := fun h => hk h.symm
      simp only [hk, ↓reduceIte, List.map_cons, ih, List.mem_cons, hk2, false_or]
      split <;> simp

/-- The table of a fresh handle is well formed, and a stub call keeps it so when
the random source delivers at least one byte. -/
theorem stubCall_tableWF (h : Handle) (entropy : Nat → List Nat) (fnName : List String)
    (args : List Val) (promise : Nat) (hwf : h.tableWF) (hent : entropy (3 * 4) ≠ []) :
    (Handle.fresh h.workerJsFile).tableWF ∧ (stubCall h entropy fnName args promise).1.tableWF := by
  refine ⟨⟨by simp [Handle.fresh], by simp [Handle.fresh]⟩, ?_⟩
  unfold stubCall
  split
  · refine ⟨?_, ?_⟩
    · simp only [setResolver_keys]
      split
      · exact hwf.1
      · rename_i hnot
        exact List.Nodup.append hwf.1 (List.nodup_singleton _)
          (by
            intro a ha hb
            rw [List.mem_singleton] at hb
            exact hnot (hb ▸ ha))
    · intro e he
      rcases setResolver_mem _ _ _ e he with he | he
      · exact hwf.2 e he
      · rw [he]
        intro hempty
        exact base64_ne_nil _ hent (by simpa using congrArg String.data hempty)
  · exact hwf

/-- One call-ret envelope whose id is in the table: the handler settles the
promise registered under that id and deletes that entry. -/
theorem onMessage_callRet_known (h : Handle) (msg : Msg) (id : String) (promise : Nat)
    (href : msg.ref = REF) (hcmd : msg.cmd = "call-ret") (hid : msg.id = some id)
    (hne : id ≠ "") (hin : lookupResolver h.returnResolvers id = some promise)
    (hres : truthy msg.error = true ∨ ∃ v, parsedResult msg.result = .ok v) :
    runWorker.onMessage h msg =
      { handle := { h with returnResolvers := deleteResolver h.returnResolvers id },
        effects := [settlement h.returnResolvers msg], raised := none } := by
  simp only [runWorker.onMessage, href, hcmd, hid, truthyStr, ne_eq, not_true_eq_false,
    ↓reduceIte, String.reduceEq, hne, not_false_eq_true, decide_True, and_self, Option.getD_some,
    runWorker.onCallRet, hin, settlement, Option.getD_some]
  by_cases herr : truthy msg.error = true
  · simp [herr]
  · rcases hres with hres | ⟨v, hv⟩
    · exact absurd hres herr
    · simp [herr, hv]

/-- C7: for a pending-call table with distinct ids, issued by stubs (so none is
the empty string), and call-ret envelopes with distinct ids that are all in the
table, delivered in the order given: each envelope settles the promise
registered under its own id, by a rejection with the carried error or else a
resolution with its own parsed result, one settlement per envelope and no other;
afterwards the table is the old one without exactly the answered ids, the other
entries in place and unchanged.  With one envelope this is the single step of
the handler; with N envelopes in any order no call is resolved with the answer
of another. -/
theorem callRets_settle_their_own_entries (h : Handle) (msgs : List Msg)
    (hnodup : (h.returnResolvers.map Prod.fst).Nodup)
    (hissued : ∀ e ∈ h.returnResolvers, e.1 ≠ "")
    (hmsgs : ∀ m ∈ msgs, m.ref = REF ∧ m.cmd = "call-ret" ∧
      (∃ id promise, m.id = some id ∧ lookupResolver h.returnResolvers id = some promise) ∧
      (truthy m.error = true ∨ ∃ v, parsedResult m.result = .ok v))
    (hdistinct : (msgs.map Msg.id).Nodup) :
    runWorker.onMessages h msgs =
      { handle := { h with returnResolvers :=
          h.returnResolvers.filter (fun e => decide (some e.1 ∉ msgs.map Msg.id)) },
        effects := msgs.map (settlement h.returnResolvers),
        raised := none } := by
  induction msgs generalizing h with
  | nil => simp [runWorker.onMessages]
  | cons m rest ih =>
    obtain ⟨href, hcmd, ⟨id, promise, hid, hin⟩, hres⟩ := hmsgs m (List.mem_cons_self _ _)
    have hne : id ≠ "" := hissued _ (lookupResolver_mem _ _ _ hin)
    simp only [List.map_cons, List.nodup_cons] at hdistinct
    have hstep := onMessage_callRet_known h m id promise href hcmd hid hne hin hres
    rw [deleteResolver_eq_filter _ _ hnodup] at hstep
    have hlook : ∀ m2 ∈ rest, ∀ id2, m2.id = some id2 →
        lookupResolver (h.returnResolvers.filter (fun e => decide (e.1 ≠ id))) id2 =
          lookupResolver h.returnResolvers id2 := by
      intro m2 hm2 id2 hid2
      have hneq : id2 ≠ id := by
        rintro rfl
        exact hdistinct.1 (hid ▸ hid2 ▸ List.mem_map_of_mem Msg.id hm2)
      rw [lookupResolver_filter h.returnResolvers (fun k => decide (k ≠ id)) id2]
      simp [hneq]
    have hih := ih
      { h with returnResolvers := h.returnResolvers.filter (fun e => decide (e.1 ≠ id)) }
      ((List.filter_sublist _).map Prod.fst |>.nodup hnodup)
      (fun e he => hissued e (List.mem_of_mem_filter he))
      (fun m2 hm2 => by
        obtain ⟨href2, hcmd2, ⟨id2, p2, hid2, hin2⟩, hres2⟩ := hmsgs m2 (List.mem_cons_of_mem _ hm2)
        exact ⟨href2, hcmd2, ⟨id2, p2, hid2, (hlook m2 hm2 id2 hid2).trans hin2⟩, hres2⟩)
      hdistinct.2
    have hsettle : rest.map (settlement (h.returnResolvers.filter (fun e => decide (e.1 ≠ id)))) =
        rest.map (settlement h.returnResolvers) := by
      apply List.map_congr_left
      intro m2 hm2
      obtain ⟨_, _, ⟨id2, p2, hid2, _⟩, _⟩ := hmsgs m2 (List.mem_cons_of_mem _ hm2)
      simp only [settlement, hid2, Option.getD_some, hlook m2 hm2 id2 hid2]
    rw [runWorker.onMessages]
    simp only [hstep, hih, hsettle, List.filter_filter, List.map_cons, List.singleton_append,
      List.mem_cons, hid, not_or]
    congr 2
    apply List.filter_congr
    intro e _
    by_cases h1 : e.1 = id <;> by_cases h2 : some e.1 ∈ rest.map Msg.id <;> simp [h1, h2]

theorem callRets_settle_their_own_entries_witness :
    runWorker.onMessages demoHandle2
        [Msg.callRet (some "CCCCCCCCCCCCCCCC") ["b"] .null (some "0"),
          Msg.callRet (some "AAAAAAAAAAAAAAAA") ["a"] (.obj "Object" []) none] =
      { handle := { demoHandle2 with returnResolvers := [("BBBBBBBBBBBBBBBB", 8)] },
        effects := [.resolved 9 (.num 0), .rejected 7 (.obj "Object" [])],
        raised := none } :=
  callRets_settle_their_own_entries demoHandle2
    [Msg.callRet (some "CCCCCCCCCCCCCCCC") ["b"] .null (some "0"),
      Msg.callRet (some "AAAAAAAAAAAAAAAA") ["a"] (.obj "Object" []) none]
    (by decide) (by decide)
    (by
      intro m hm
      simp only [List.mem_cons, List.mem_singleton, List.not_mem_nil, or_false] at hm
      rcases hm with rfl | rfl
      · exact ⟨rfl, rfl, ⟨"CCCCCCCCCCCCCCCC", 9, rfl, rfl⟩, Or.inr ⟨.num 0, rfl⟩⟩
      · exact ⟨rfl, rfl, ⟨"AAAAAAAAAAAAAAAA", 7, rfl, rfl⟩, Or.inl rfl⟩)
    (by simp [Msg.callRet])

/-! ## Unknown correlation ids -/

/-- C8, counterexample: a call-ret envelope with the protocol ref and an empty
id, or without an id, which is in no pending-call table, is handled without an
error and without any effect. -/
theorem callRet_with_empty_id_is_ignored :
    lookupResolver demoHandle.returnResolvers "" = none ∧
      runWorker.onMessage demoHandle (Msg.callRet (some "") [] .null (some "1")) =
        { handle := demoHandle, effects := [], raised := none } ∧
      runWorker.onMessage demoHandle (Msg.callRet none [] .null (some "1")) =
        { handle := demoHandle, effects := [], raised := none } := by
  refine ⟨rfl, rfl, rfl⟩

/-- C8, amended: a call-ret envelope with the protocol ref whose id is not in
the pending-call table makes the handler throw, with the table and the rest of
the handle unchanged and nothing settled, when the id is a non-empty string;
when the id is empty or absent the envelope is ignored: no error, no effect, the
handle unchanged. -/
theorem callRet_with_unknown_id (h : Handle) (msg : Msg)
    (href : msg.ref = REF) (hcmd : msg.cmd = "call-ret")
    (hunknown : ∀ id, msg.id = some id → lookupResolver h.returnResolvers id = none) :
    (truthyStr msg.id = true →
        (runWorker.onMessage h msg).raised.isSome = true ∧
        (runWorker.onMessage h msg).handle = h ∧
        (runWorker.onMessage h msg).effects = []) ∧
      (truthyStr msg.id = false →
        runWorker.onMessage h msg = { handle := h, effects := [], raised := none }) := by
  constructor
  · intro hid
    cases hmid : msg.id with
    | none => simp [hmid, truthyStr] at hid
    | some id =>
      have hl := hunknown id hmid
      simp only [runWorker.onMessage, href, hcmd, hmid] at hid ⊢
      simp only [ne_eq, not_true_eq_false, ↓reduceIte, String.reduceEq, hid, and_self,
        Option.getD_some, runWorker.onCallRet, hl]
      split
      · split
        · simp
        · split <;> simp
      · simp
  · intro hid
    simp [runWorker.onMessage, href, hcmd, hid]

theorem callRet_with_unknown_id_witness :
    lookupResolver demoHandle.returnResolvers "BBBBBBBBBBBBBBBB" = none ∧
      (runWorker.onMessage demoHandle
        (Msg.callRet (some "BBBBBBBBBBBBBBBB") [] .null (some "1"))).raised.isSome = true ∧
      (runWorker.onMessage demoHandle
        (Msg.callRet (some "BBBBBBBBBBBBBBBB") [] .null (some "1"))).handle = demoHandle :=
  ⟨rfl,
    ((callRet_with_unknown_id demoHandle
      (Msg.callRet (some "BBBBBBBBBBBBBBBB") [] .null (some "1")) rfl rfl
      (by intro id hid; cases hid; rfl)).1 rfl).1,
    ((callRet_with_unknown_id demoHandle
      (Msg.callRet (some "BBBBBBBBBBBBBBBB") [] .null (some "1")) rfl rfl
      (by intro id hid; cases hid; rfl)).1 rfl).2.1⟩

/-! ## Stubs of a dead handle, and the exit of a worker -/

/-- C9: a stub invoked while its handle reports `isDead()` rejects the returned
promise at once and does nothing else: no random bytes are drawn for an id, no
envelope is sent and the handle, its pending-call table included, is unchanged. -/
theorem stub_of_dead_handle_rejects (h : Handle) (entropy : Nat → List Nat)
    (fnName : List String) (args : List Val) (promise : Nat) (hdead : h.isDead = true) :
    stubCall h entropy fnName args promise =
      (h, [.rejected promise (.str ("worker '" ++ h.workerJsFile ++ "' not available"))]) := by
  simp [stubCall, hdead]

theorem stub_of_dead_handle_rejects_witness :
    ({ demoHandle with isDead := true } : Handle).isDead = true ∧
      stubCall { demoHandle with isDead := true } (fun _ => [1, 2, 3]) ["getY"] [] 8 =
        ({ demoHandle with isDead := true },
          [.rejected 8 (.str "worker 'worker.js' not available")]) :=
  ⟨rfl, stub_of_dead_handle_rejects _ _ _ _ _ rfl⟩

/-- C10: when the exit event of handle `i` is handled while its pending-call
table holds M entries, what is done is exactly one rejection per entry, each
with an Error whose message is `Worker exited.`; every other handle is left as
it was, and no promise that is pending only in another handle's table is
settled. -/
theorem exit_rejects_exactly_own_pending (stackOf : String → String) (c : Coordinator) (i : Nat)
    (h : Handle) (hi : c.get? i = some h) :
    (Coordinator.exit stackOf c i).2 =
        h.returnResolvers.map (fun entry =>
          Effect.rejected entry.2 (mkError stackOf "Error" "Worker exited.")) ∧
      (Coordinator.exit stackOf c i).2.length = h.returnResolvers.length ∧
      getProp stackOf (mkError stackOf "Error" "Worker exited.") "message" =
        .ok (.str "Worker exited.") ∧
      (∀ j, j ≠ i → (Coordinator.exit stackOf c i).1.get? j = c.get? j) ∧
      (∀ j other, j ≠ i → c.get? j = some other →
        ∀ entry ∈ other.returnResolvers,
          (∀ mine ∈ h.returnResolvers, mine.2 ≠ entry.2) →
          ∀ e ∈ (Coordinator.exit stackOf c i).2, e.settles entry.2 = false) := by
  have heff : (Coordinator.exit stackOf c i).2 =
      h.returnResolvers.map (fun entry =>
        Effect.rejected entry.2 (mkError stackOf "Error" "Worker exited.")) := by
    simp only [Coordinator.exit, hi, runWorker.onExit]
  refine ⟨heff, by simp [heff], ?_, ?_, ?_⟩
  · simp [getProp, mkError, ownProperties, lookupProp]
  · intro j hj
    simp only [Coordinator.exit, hi]
    rw [List.get?_eq_getElem?, List.get?_eq_getElem?, List.getElem?_set_ne (Ne.symm hj)]
  · intro j other _ _ entry _ hmine e he
    rw [heff] at he
    obtain ⟨mine, hmem, rfl⟩ := List.mem_map.mp he
    simpa [Effect.settles] using hmine mine hmem

theorem exit_rejects_exactly_own_pending_witness :
    (Coordinator.exit (fun _ => "") [demoHandle, Handle.fresh "other.js"] 0).2 =
        [Effect.rejected 7 (mkError (fun _ => "") "Error" "Worker exited.")] ∧
      (Coordinator.exit (fun _ => "") [demoHandle, Handle.fresh "other.js"] 0).1.get? 1 =
        some (Handle.fresh "other.js") :=
  ⟨(exit_rejects_exactly_own_pending (fun _ => "") [demoHandle, Handle.fresh "other.js"] 0
      demoHandle rfl).1,
    (exit_rejects_exactly_own_pending (fun _ => "") [demoHandle, Handle.fresh "other.js"] 0
      demoHandle rfl).2.2.2.1 1 (by decide)⟩

/-! ## Event bridge -/

/-- C14: `sendToMaster(key, msg)` ends by throwing the error
`'<key>' is a reserved message keyword`, having sent nothing, exactly when the key
is one of disconnect, exit, fork, listening, message, online, setup; for every
other key it sends exactly one envelope `{ref: 'runWorker', cmd: 'emit', key:
key, obj: msg}` and does not throw. -/
theorem sendToMaster_reserved_iff (stackOf : String → String) (key : String) (msg : Val) :
    (sendToMaster stackOf key msg =
          [.raised (mkError stackOf "Error" ("'" ++ key ++ "' is a reserved message keyword"))] ↔
        (key = "disconnect" ∨ key = "exit" ∨ key = "fork" ∨ key = "listening" ∨
          key = "message" ∨ key = "online" ∨ key = "setup")) ∧
      (sendToMaster stackOf key msg = [.sent (Msg.emit key msg)] ↔
        ¬ (key = "disconnect" ∨ key = "exit" ∨ key = "fork" ∨ key = "listening" ∨
          key = "message" ∨ key = "online" ∨ key = "setup")) ∧
      (Msg.emit key msg).ref = "runWorker" ∧ (Msg.emit key msg).cmd = "emit" ∧
      (Msg.emit key msg).key = some key ∧ (Msg.emit key msg).obj = msg := by
  have hmem : reservedKeys.contains key = true ↔
      (key = "disconnect" ∨ key = "exit" ∨ key = "fork" ∨ key = "listening" ∨
        key = "message" ∨ key = "online" ∨ key = "setup") := by
    simp [reservedKeys]
  refine ⟨?_, ?_, rfl, rfl, rfl, rfl⟩
  · by_cases hk : reservedKeys.contains key = true
    · simp only [sendToMaster, hk, ↓reduceIte, reservedMessage, true_iff]
      exact hmem.mp hk
    · simp only [sendToMaster, hk, Bool.false_eq_true, ↓reduceIte, List.cons.injEq,
        reduceCtorEq, and_true, false_iff]
      exact fun h => hk (hmem.mpr h)
  · by_cases hk : reservedKeys.contains key = true
    · simp only [sendToMaster, hk, ↓reduceIte, List.cons.injEq, reduceCtorEq, and_true,
        false_iff, not_not]
      exact hmem.mp hk
    · simp only [sendToMaster, hk, Bool.false_eq_true, ↓reduceIte, true_iff]
      exact fun h => hk (hmem.mpr h)

/-- C15, at the failing input `sendToWorker('customkey', 'bla')`: the key is not
reserved, and the method ends by throwing a ReferenceError for the undeclared
name `reObj`; no envelope is sent to the worker. -/
theorem sendToWorker_throws_for_custom_key :
    reservedKeys.contains "customkey" = false ∧
      runWorker.sendToWorker demoHandle "customkey" (.str "bla") =
        { handle := demoHandle, effects := [], raised := some (.referenceError "reObj") } := by
  refine ⟨rfl, rfl⟩

/-- The method `sendToWorker` sends nothing and throws, whatever the key. -/
theorem sendToWorker_never_sends (h : Handle) (key : String) (message : Val) :
    (runWorker.sendToWorker h key message).effects = [] ∧
      (runWorker.sendToWorker h key message).raised.isSome = true := by
  unfold runWorker.sendToWorker
  split <;> exact ⟨rfl, rfl⟩

/-- An emit envelope that does reach the worker is re-raised there as the event
`key` with its payload. -/
theorem worker_reraises_emit (env : WorkerEnv) (requiredWorker : Val) (key : String) (obj : Val) :
    _runWorkerHandler.onMessage env requiredWorker (Msg.emit key obj) =
      [.emitted (some key) obj] := by
  simp [_runWorkerHandler.onMessage, Msg.emit, REF]

/-! ## Scalar leaves and promise leaves -/

theorem mapper_other_type (t : String) (key : Option String)
    (children : Option (List ExportNode)) (parent : List (String × Mirror))
    (pathParts : List String)
    (ht : t ≠ "Array" ∧ t ≠ "Object" ∧ t ≠ "Function" ∧ t ≠ "AsyncFunction" ∧ t ≠ "Promise") :
    mapper (.mk t key children) parent pathParts = (parent, none) := by
  obtain ⟨h1, h2, h3, h4, h5⟩ := ht
  unfold mapper
  simp [h1, h2, h3, h4, h5]

/-- C17: for a node whose type is none of Array, Object, Function, AsyncFunction
and Promise, whatever its key and children, the mapper ends without an error and
leaves the properties of the parent container exactly as they were: no property
is created, so nothing can be read for the leaf that could not be read before. -/
theorem mapper_skips_scalar_node (t : String) (key : Option String)
    (children : Option (List ExportNode)) (parent : List (String × Mirror))
    (pathParts : List String)
    (ht : t ≠ "Array" ∧ t ≠ "Object" ∧ t ≠ "Function" ∧ t ≠ "AsyncFunction" ∧ t ≠ "Promise") :
    mapper (.mk t key children) parent pathParts = (parent, none) ∧
      ∀ k, readProp (mapper (.mk t key children) parent pathParts).1 k = readProp parent k := by
  have hm := mapper_other_type t key children parent pathParts ht
  exact ⟨hm, fun k => by rw [hm]⟩

theorem mapper_skips_scalar_node_witness :
    mapper (.mk "number" (some "x") none) [("f", .stub ["f"])] [] = ([("f", .stub ["f"])], none) ∧
      (runWorker.onMessage (Handle.fresh "worker.js")
          (_runWorkerHandler.announce
            (.obj "Object" [("x", true, .num 1), ("y", true, .str "abc"), ("z", true, .bool true),
              ("v1", true, .null), ("u", true, .undefined),
              ("f", true, .fn false 0)]))).handle.mirror =
        [("f", .stub ["f"])] :=
  ⟨(mapper_skips_scalar_node "number" (some "x") none [("f", .stub ["f"])] []
      ⟨by decide, by decide, by decide, by decide, by decide⟩).1, rfl⟩

/-- The export tree node of a value that is `undefined`, `null`, a boolean, a
number or a string is skipped by the mapper. -/
theorem mapper_skips_scalar_value (v : Val) (key : Option String)
    (parent : List (String × Mirror)) (pathParts : List String)
    (hv : instanceofFunction v = false ∧ (typeof v ≠ "object" ∨ isNull v = true)) :
    mapper (buildMap v key) parent pathParts = (parent, none) := by
  cases v with
  | undefined => exact mapper_other_type _ key none parent pathParts (by decide)
  | null => exact mapper_other_type _ key none parent pathParts (by decide)
  | bool b =>
    exact mapper_other_type _ key none parent pathParts (by simp [typeof])
  | num n =>
    exact mapper_other_type _ key none parent pathParts (by simp [typeof])
  | str s =>
    exact mapper_other_type _ key none parent pathParts (by simp [typeof])
  | fn isAsync id => simp [instanceofFunction] at hv
  | promise id => simp [typeof, isNull] at hv
  | arr elems => simp [typeof, isNull] at hv
  | obj cls members => simp [typeof, isNull] at hv
  | arrWith slots named => simp [typeof, isNull] at hv

/-- C19: when the `functionPath` of a Call envelope resolves to a promise of the
loaded module, the dispatcher applies it like a function, which throws a
TypeError inside the `try`: the reply carries the marshaled TypeError, a
non-null error, and no result, and the coordinator's handling of the reply
rejects the pending promise of the call with that error. -/
theorem promise_target_is_rejected (env : WorkerEnv) (requiredWorker : Val) (h : Handle)
    (id : String) (functionPath : List String) (args : List Val) (pid : Nat) (fnLast : Val)
    (promise : Nat)
    (hid : id ≠ "")
    (hwalk : walkPath env.stackOf requiredWorker requiredWorker functionPath =
      .ok (.promise pid, fnLast))
    (hpending : lookupResolver h.returnResolvers id = some promise) :
    _runWorkerHandler.onMessage env requiredWorker (Msg.call id functionPath args) =
        [.logged (mkError env.stackOf "TypeError" "fn.apply is not a function"),
          .sent (Msg.callRet (some id) functionPath
            (.obj "Object" [("stack", true, .str (env.stackOf "fn.apply is not a function")),
              ("message", true, .str "fn.apply is not a function")]) none)] ∧
      truthy (.obj "Object" [("stack", true, .str (env.stackOf "fn.apply is not a function")),
        ("message", true, .str "fn.apply is not a function")]) = true ∧
      runWorker.onMessage h (Msg.callRet (some id) functionPath
          (.obj "Object" [("stack", true, .str (env.stackOf "fn.apply is not a function")),
            ("message", true, .str "fn.apply is not a function")]) none) =
        { handle := { h with returnResolvers := deleteResolver h.returnResolvers id },
          effects := [.rejected promise
            (.obj "Object" [("stack", true, .str (env.stackOf "fn.apply is not a function")),
              ("message", true, .str "fn.apply is not a function")])],
          raised := none } := by
  refine ⟨?_, rfl, ?_⟩
  · rw [onMessage_call, _runWorkerHandler.onCall]
    simp only [Msg.call] at hwalk ⊢
    rw [hwalk]
    simp [tryBlock, instanceofFunction, instanceofAsyncFunction, instanceofPromise, applyFn,
      finishCall, convertErrorToPlainObj, mkError, ownProperties, replyTo, resultField,
      Msg.callRet]
  · rw [onMessage_callRet h id functionPath _ _ hid, runWorker.onCallRet, hpending]
    simp [Msg.callRet, truthy]

theorem promise_target_is_rejected_witness :
    valueAt demoEnv.stackOf docstringModule ["default", "action3"] = .ok (.promise 0) ∧
      buildMap (.promise 0) (some "action3") = .mk "Promise" (some "action3") none ∧
      _runWorkerHandler.onMessage demoEnv docstringModule
          (Msg.call "AAAAAAAAAAAAAAAA" ["default", "action3"] []) =
        [.logged (mkError demoEnv.stackOf "TypeError" "fn.apply is not a function"),
          .sent (Msg.callRet (some "AAAAAAAAAAAAAAAA") ["default", "action3"]
            (.obj "Object" [("stack", true, .str ""),
              ("message", true, .str "fn.apply is not a function")]) none)] :=
  ⟨rfl, rfl,
    (promise_target_is_rejected demoEnv docstringModule demoHandle "AAAAAAAAAAAAAAAA"
      ["default", "action3"] [] 0
      (.obj "Object"
        [("action1", true, .fn true 0), ("action2", true, .fn false 1),
          ("action3", true, .promise 0),
          ("namespace", true, .obj "Object" [("sub1", true, .fn false 2)]),
          ("list", true, .arr [.fn false 3, .fn false 4]),
          ("x", true, .num 1), ("y", true, .str "abc"), ("z", true, .bool true),
          ("v1", true, .null), ("exit", true, .fn false 5), ("error", true, .fn false 6)])
      7 (by decide) rfl rfl).1⟩

/-! ## Exit of a worker: the table and the spawn promise -/

/-- No step of the exit handler changes the handle: the pending-call table after
the exit event is the table before it. -/
theorem onExit_keeps_table (stackOf : String → String) (h : Handle) :
    (runWorker.onExit stackOf h).1 = h ∧
      ∀ e ∈ (runWorker.onExit stackOf h).2, e.settlesSpawn = false := by
  refine ⟨rfl, ?_⟩
  intro e he
  simp only [runWorker.onExit, List.mem_map] at he
  obtain ⟨entry, _, rfl⟩ := he
  rfl

/-- C11, at the failing input: a handle with one pending call, promise 7 under
the id `AAAAAAAAAAAAAAAA`, whose worker exits.  The exit handler rejects promise
7 and leaves its entry in the table, which is not empty afterwards; a call-ret
for that id arriving later finds the entry, calls `resolve` of promise 7 a
second time and only then deletes the entry, without the error for an answered
call. -/
theorem exit_leaves_entries_in_table :
    Coordinator.exit (fun _ => "") [demoHandle] 0 =
        ([{ demoHandle with isDead := true }],
          [.rejected 7 (mkError (fun _ => "") "Error" "Worker exited.")]) ∧
      ({ demoHandle with isDead := true } : Handle).returnResolvers =
        [("AAAAAAAAAAAAAAAA", 7)] ∧
      runWorker.onMessage { demoHandle with isDead := true }
          (Msg.callRet (some "AAAAAAAAAAAAAAAA") ["zero"] .null (some "0")) =
        { handle := { demoHandle with isDead := true, returnResolvers := [] },
          effects := [.resolved 7 (.num 0)], raised := none } := by
  refine ⟨rfl, rfl, rfl⟩

/-- C12, at the failing input: a handle that has received no content envelope,
whose worker exits.  The exit handler does nothing at all: the spawn promise is
neither rejected nor resolved, and stays pending. -/
theorem exit_before_handshake_settles_nothing :
    Coordinator.exit (fun _ => "") [Handle.fresh "worker.js"] 0 =
        ([{ Handle.fresh "worker.js" with isDead := true }], []) ∧
      runWorker.listeners (fun _ => "") (Handle.fresh "worker.js") (some "exit") .undefined =
        [] := by
  refine ⟨rfl, rfl⟩

/-! ## Error marshaling and load failure -/

theorem lookupProp_map_enumerable (members : List (String × Bool × Val)) (key : String) :
    lookupProp (members.map fun m => (m.1, true, m.2.2)) key = lookupProp members key := by
  induction members with
  | nil => rfl
  | cons m rest ih =>
    obtain ⟨n, e, x⟩ := m
    simp only [List.map_cons, lookupProp, ih]

/-- C18, counterexample: the error `new Error()`, created without a message, has
the single own property `stack`; its marshaled form has that key only and no
message field. -/
theorem marshaled_error_without_message :
    convertErrorToPlainObj (fun _ => "") (.obj "Error" [("stack", false, .str "Error")]) =
        .ok (.obj "Object" [("stack", true, .str "Error")]) ∧
      "message" ∉ ([("stack", true, Val.str "Error")].map fun m => m.1) := by
  refine ⟨rfl, by decide⟩

/-- C18, amended: for every thrown value `e` that has an object form,
`convertErrorToPlainObj(e)` is a plain record (class Object, whatever the class
of `e`) whose keys are exactly the own property names of `e`, enumerable or
not, in their order, each mapped to the value `e` has for it; it has a message
field exactly when `e` has an own property of that name. -/
theorem convertErrorToPlainObj_own_properties (stackOf : String → String) (e : Val)
    (members : List (String × Bool × Val)) (hown : ownProperties e = some members) :
    convertErrorToPlainObj stackOf e =
        .ok (.obj "Object" (members.map fun m => (m.1, true, m.2.2))) ∧
      ((members.map fun m => (m.1, true, m.2.2)).map fun m => m.1) = members.map (fun m => m.1) ∧
      (∀ key, lookupProp (members.map fun m => (m.1, true, m.2.2)) key =
        lookupProp members key) ∧
      ("message" ∈ ((members.map fun m => (m.1, true, m.2.2)).map fun m => m.1) ↔
        "message" ∈ members.map fun m => m.1) := by
  have hkeys : ((members.map fun m => (m.1, true, m.2.2)).map fun m => m.1) =
      members.map (fun m => m.1) := by
    simp [List.map_map, Function.comp_def]
  refine ⟨by simp [convertErrorToPlainObj, hown], hkeys, lookupProp_map_enumerable members, ?_⟩
  rw [hkeys]

theorem convertErrorToPlainObj_own_properties_witness :
    ownProperties (.obj "TypeError" [("stack", false, .str "s"), ("message", false, .str "m"),
        ("code", true, .num 7)]) =
        some [("stack", false, .str "s"), ("message", false, .str "m"), ("code", true, .num 7)] ∧
      convertErrorToPlainObj (fun _ => "")
          (.obj "TypeError" [("stack", false, .str "s"), ("message", false, .str "m"),
            ("code", true, .num 7)]) =
        .ok (.obj "Object" [("stack", true, .str "s"), ("message", true, .str "m"),
          ("code", true, .num 7)]) :=
  ⟨rfl,
    (convertErrorToPlainObj_own_properties (fun _ => "")
      (.obj "TypeError" [("stack", false, .str "s"), ("message", false, .str "m"),
        ("code", true, .num 7)])
      [("stack", false, .str "s"), ("message", false, .str "m"), ("code", true, .num 7)]
      rfl).1⟩

theorem lookupProp_absent (members : List (String × Bool × Val)) (key : String)
    (h : key ∉ members.map fun m => m.1) : lookupProp members key = .undefined := by
  induction members with
  | nil => rfl
  | cons m rest ih =>
    obtain ⟨n, e, x⟩ := m
    simp only [List.map_cons, List.mem_cons, not_or] at h
    have hne : ¬ n = key := fun hc => h.1 hc.symm
    simp only [lookupProp, hne, ↓reduceIte]
    exact ih h.2

/-- C13, counterexample: a module whose load throws `new Error()`.  That error
has the own property `stack` only; its message, the empty string, is inherited
from `Error.prototype`.  The bootstrap sends the emit envelope `error` with the
marshaled `stack`, and the coordinator rejects the spawn promise with
`Could not initialize worker. undefined`, which is not `Could not initialize
worker. ` followed by the empty message of the error.  A load that throws `null`
sends no envelope at all. -/
theorem load_failure_without_own_message :
    _runWorkerHandler demoEnv (.error (.obj "Error" [("stack", false, .str "Error")])) =
        [.printed (.obj "Error" [("stack", false, .str "Error")]),
          .sent (Msg.emit "error" (.obj "Object" [("stack", true, .str "Error")])),
          .exited 1] ∧
      runWorker.withListeners (fun _ => "") (Handle.fresh "worker.js")
          (runWorker.onMessage (Handle.fresh "worker.js")
            (Msg.emit "error" (.obj "Object" [("stack", true, .str "Error")]))).effects =
        [.emitted (some "error") (.obj "Object" [("stack", true, .str "Error")]),
          .logged (.obj "Object" [("stack", true, .str "Error")]),
          .spawnRejected (mkError (fun _ => "") "Error"
            "Could not initialize worker. undefined")] ∧
      "Could not initialize worker. undefined" ≠ "Could not initialize worker. " ++ "" ∧
      _runWorkerHandler demoEnv (.error .null) =
        [.printed .null,
          .raised (mkError demoEnv.stackOf "TypeError"
            "Cannot convert undefined or null to object")] := by
  refine ⟨rfl, rfl, by decide, rfl⟩

/-- C13, amended: when loading the module throws a value `e` that has an object
form (anything but `undefined` and `null`), the bootstrap prints it, sends
exactly one emit envelope with key `error` that carries
`convertErrorToPlainObj(e)`, and exits with status 1: no content envelope is
sent and the call handler is not registered.  The coordinator's message handler
re-emits that envelope as the event `error`, and the error handler rejects the
spawn promise with an Error whose message is `Could not initialize worker. `
followed by the text of the own `message` property of `e`: the message itself
when it is a string, `undefined` when `e` has no own property of that name.  The
statement is kept to a primitive `message`, which the channel transports
unchanged and whose conversion to text `concatText` gives exactly. -/
theorem load_failure_rejects_spawn (env : WorkerEnv) (stackOf : String → String) (h : Handle)
    (e : Val) (members : List (String × Bool × Val))
    (hown : ownProperties e = some members)
    (_hprim : isPrimitive (lookupProp members "message") = true) :
    convertErrorToPlainObj env.stackOf e =
        .ok (.obj "Object" (members.map fun m => (m.1, true, m.2.2))) ∧
      _runWorkerHandler env (.error e) =
        [.printed e,
          .sent (Msg.emit "error" (.obj "Object" (members.map fun m => (m.1, true, m.2.2)))),
          .exited 1] ∧
      runWorker.onMessage h
          (Msg.emit "error" (.obj "Object" (members.map fun m => (m.1, true, m.2.2)))) =
        { handle := h,
          effects := [.emitted (some "error")
            (.obj "Object" (members.map fun m => (m.1, true, m.2.2)))],
          raised := none } ∧
      runWorker.withListeners stackOf h
          [.emitted (some "error") (.obj "Object" (members.map fun m => (m.1, true, m.2.2)))] =
        [.emitted (some "error") (.obj "Object" (members.map fun m => (m.1, true, m.2.2))),
          .logged (.obj "Object" (members.map fun m => (m.1, true, m.2.2))),
          .spawnRejected (mkError stackOf "Error" ("Could not initialize worker. " ++
            concatText (lookupProp members "message")))] ∧
      (∀ text, lookupProp members "message" = .str text →
        concatText (lookupProp members "message") = text) ∧
      (("message" ∉ members.map fun m => m.1) →
        concatText (lookupProp members "message") = "undefined") := by
  have hconv : convertErrorToPlainObj env.stackOf e =
      .ok (.obj "Object" (members.map fun m => (m.1, true, m.2.2))) := by
    simp [convertErrorToPlainObj, hown]
  refine ⟨hconv, ?_, ?_, ?_, ?_, ?_⟩
  · simp [_runWorkerHandler, hconv, sendToMaster, reservedKeys]
  · simp [runWorker.onMessage, Msg.emit, REF]
  · simp [runWorker.withListeners, runWorker.listeners, runWorker.onError, getProp,
      ownProperties, lookupProp_map_enumerable]
  · intro text htext
    rw [htext]
    rfl
  · intro habsent
    rw [lookupProp_absent members "message" habsent]
    rfl

theorem load_failure_rejects_spawn_witness :
    _runWorkerHandler demoEnv
        (.error (mkError demoEnv.stackOf "Error" "Cannot find module 'nope.js'")) =
        [.printed (mkError demoEnv.stackOf "Error" "Cannot find module 'nope.js'"),
          .sent (Msg.emit "error" (.obj "Object" [("stack", true, .str ""),
            ("message", true, .str "Cannot find module 'nope.js'")])),
          .exited 1] ∧
      runWorker.withListeners (fun _ => "") (Handle.fresh "nope.js")
          [.emitted (some "error") (.obj "Object" [("stack", true, .str ""),
            ("message", true, .str "Cannot find module 'nope.js'")])] =
        [.emitted (some "error") (.obj "Object" [("stack", true, .str ""),
            ("message", true, .str "Cannot find module 'nope.js'")]),
          .logged (.obj "Object" [("stack", true, .str ""),
            ("message", true, .str "Cannot find module 'nope.js'")]),
          .spawnRejected (mkError (fun _ => "") "Error"
            "Could not initialize worker. Cannot find module 'nope.js'")] :=
  ⟨(load_failure_rejects_spawn demoEnv (fun _ => "") (Handle.fresh "nope.js")
      (mkError demoEnv.stackOf "Error" "Cannot find module 'nope.js'")
      [("stack", false, .str ""), ("message", false, .str "Cannot find module 'nope.js'")]
      rfl rfl).2.1,
    (load_failure_rejects_spawn demoEnv (fun _ => "") (Handle.fresh "nope.js")
      (mkError demoEnv.stackOf "Error" "Cannot find module 'nope.js'")
      [("stack", false, .str ""), ("message", false, .str "Cannot find module 'nope.js'")]
      rfl rfl).2.2.2.1⟩

/-- A load that throws `null` or `undefined`: the marshaler throws inside the
`catch` block, so nothing is sent and `process.exit(1)` is not reached. -/
theorem load_failure_without_object_form (env : WorkerEnv) (e : Val)
    (hown : ownProperties e = none) :
    _runWorkerHandler env (.error e) =
      [.printed e,
        .raised (mkError env.stackOf "TypeError" "Cannot convert undefined or null to object")] := by
  simp [_runWorkerHandler, convertErrorToPlainObj, hown]

/-- A module that loads is announced after the call handler is registered. -/
theorem load_success_announces (env : WorkerEnv) (requiredWorker : Val) :
    _runWorkerHandler env (.ok requiredWorker) =
      [.registered, .sent (Msg.content (buildMap requiredWorker none))] := by
  rfl

/-! ## Correlation ids -/

theorem base64_length (k : Nat) : ∀ bytes : List Nat, bytes.length = 3 * k →
    (base64 bytes).length = 4 * k := by
  induction k with
  | zero =>
    intro bytes hlen
    have : bytes = [] := List.length_eq_zero.mp (by omega)
    subst this
    rfl
  | succ k ih =>
    intro bytes hlen
    match bytes, hlen with
    | a :: b :: c :: rest, hlen =>
      have hrest : rest.length = 3 * k := by
        simp only [List.length_cons] at hlen
        omega
      simp only [base64, List.length_cons, ih rest hrest]
      omega

/-- C16, counterexample: a stub call on a fresh handle draws 12 random bytes for
its id, fewer than 16; the id is their base64 text of 16 characters. -/
theorem stub_id_draws_twelve_bytes :
    (stubCall (Handle.fresh "worker.js") (fun n => List.replicate n 0) ["zero"] [] 8).2 =
        [.randomBytes 12, .sentToWorker (Msg.call "AAAAAAAAAAAAAAAA" ["zero"] [])] ∧
      ((stubCall (Handle.fresh "worker.js") (fun n => List.replicate n 0) ["zero"] []
        8).2.map Effect.bytesDrawn).sum < 16 := by
  refine ⟨rfl, by decide⟩

/-- C16, amended: every correlation id a stub issues on a live handle is the
base64 encoding of exactly 12 bytes drawn by one call of `crypto.randomBytes`;
the id has 16 characters, is registered for the promise of the call and is the
id of the Call envelope sent. -/
theorem stub_id_is_base64_of_twelve_bytes (h : Handle) (entropy : Nat → List Nat)
    (fnName : List String) (args : List Val) (promise : Nat)
    (halive : h.isDead = false) (hlen : (entropy 12).length = 12) :
    stubCall h entropy fnName args promise =
        ({ h with returnResolvers :=
            setResolver h.returnResolvers (String.mk (base64 (entropy 12))) promise },
          [.randomBytes 12,
            .sentToWorker (Msg.call (String.mk (base64 (entropy 12))) fnName args)]) ∧
      ((stubCall h entropy fnName args promise).2.map Effect.bytesDrawn).sum = 12 ∧
      (base64 (entropy 12)).length = 16 ∧
      lookupResolver (stubCall h entropy fnName args promise).1.returnResolvers
        (String.mk (base64 (entropy 12))) = some promise := by
  have hstub : stubCall h entropy fnName args promise =
      ({ h with returnResolvers :=
          setResolver h.returnResolvers (String.mk (base64 (entropy 12))) promise },
        [.randomBytes 12,
          .sentToWorker (Msg.call (String.mk (base64 (entropy 12))) fnName args)]) := by
    simp [stubCall, halive]
  refine ⟨hstub, ?_, base64_length 4 _ hlen, ?_⟩
  · rw [hstub]
    rfl
  · rw [hstub]
    generalize String.mk (base64 (entropy 12)) = id
    induction h.returnResolvers with
    | nil => simp [setResolver, lookupResolver]
    | cons entry rest ih =>
      obtain ⟨k, p⟩ := entry
      by_cases hk : k = id
      · simp [setResolver, lookupResolver, hk]
      · simpa [setResolver, lookupResolver, hk] using ih

theorem stub_id_is_base64_of_twelve_bytes_witness :
    stubCall demoHandle2 (fun n => List.replicate n 255) ["getY"] [] 10 =
      ({ demoHandle2 with returnResolvers :=
          [("AAAAAAAAAAAAAAAA", 7), ("BBBBBBBBBBBBBBBB", 8), ("CCCCCCCCCCCCCCCC", 9),
            ("////////////////", 10)] },
        [.randomBytes 12, .sentToWorker (Msg.call "////////////////" ["getY"] [])]) :=
  (stub_id_is_base64_of_twelve_bytes demoHandle2 (fun n => List.replicate n 255) ["getY"] [] 10
    rfl rfl).1

end RunWorker
